import Mathlib

/-!
# ProjectedStateSpace: constrained sampling and manifold traversal

Shallow embedding of `src/ompl/base/spaces/constraint/src/ProjectedStateSpace.cpp`.

* States are values of an arbitrary type `S`; `cloneState` / `copyState` are value copies.
* C++ `double` values are rationals (`ℚ`). Comparisons and `2.0 * delta_` are exact on
  doubles; the division `delta_ / dist` is not, so its result is the exact quotient passed
  through the rounding `fl` of the space (round to nearest, underflow to zero included).
* The collaborators (constraint, ambient space, validity checker, wrapped sampler) are
  fields of a record of functions. An operation that mutates a state in place and returns
  a flag (`project`) becomes a function returning the new state together with the flag.
* `std::vector<State *> *stateList` is an `Option (List S)`: `none` is `nullptr`.
* The `do … while` loop takes a fuel argument (number of iterations it may run) and
  returns `none` when the fuel is exhausted.
* Every collaborator invocation is appended to a log, in program order, so that
  statements about which calls are made can be expressed. The number of loop iterations
  of a call is the number of `project` calls in its log.
* `checkSpace` returns an `Except`: the thrown `ompl::Exception` is `Except.error`. The
  dynamic type that `dynamic_cast` inspects is a tag on the state space.
-/

namespace ompl
namespace base

/-- One invocation of a collaborator, as made by `traverseManifold` or by the sampler. -/
inductive Call (S : Type) where
  | isSatisfied (s : S)
  | distance (a b : S)
  | interpolate (a b : S) (t : ℚ)
  | project (s : S)
  | isValid (s : S)
  deriving DecidableEq

/-- The collaborators and the configuration of a `ProjectedStateSpace`:
`delta_`, the constraint (`isSatisfied`, `project`), the ambient space
(`distance`, `WrapperStateSpace::interpolate`) and the state validity checker of `si_`.
The field `fl` is the rounding that the machine applies to the exact quotient of the one
inexact `double` operation of `traverseManifold`, the division `delta_ / dist` (source
line 111); it is the identity unless a space says otherwise. -/
structure ProjectedStateSpace (S : Type) where
  delta_ : ℚ
  isSatisfied : S → Bool
  project : S → S × Bool
  distance : S → S → ℚ
  interpolate : S → S → ℚ → S
  isValid : S → Bool
  fl : ℚ → ℚ := fun x => x

/-- The local variables of `traverseManifold` that live across loop iterations
(`previous`, `dist`, the caller's `stateList`), plus two ghost components: the states
accepted so far, in order, and the log of collaborator calls. -/
structure LoopState (S : Type) where
  previous : S
  dist : ℚ
  stateList : Option (List S)
  accepted : List S
  calls : List (Call S)

/-- What a call of `traverseManifold` leaves behind: the returned boolean, the caller's
`stateList`, and the ghost components (`previous` is the content of the local `previous`
when it is freed, or `from` when it was never allocated). -/
structure Outcome (S : Type) where
  ret : Bool
  stateList : Option (List S)
  previous : S
  accepted : List S
  calls : List (Call S)

variable {S : Type}

/-- One execution of the body of the `do … while` loop (source lines 110-130).
The boolean is `true` when the body left through one of its two `break`s. -/
def loopBody (sp : ProjectedStateSpace S) (toS : S) (interpolate : Bool)
    (st : LoopState S) : LoopState S × Bool :=
  let t := sp.fl (sp.delta_ / st.dist)
  let scratch0 := sp.interpolate st.previous toS t
  let pr := sp.project scratch0
  let scratch := pr.1
  let onManifold := pr.2
  let valid := interpolate || sp.isValid scratch
  let deviated := decide (sp.distance st.previous scratch > 2 * sp.delta_)
  let calls1 := st.calls ++ [Call.interpolate st.previous toS t, Call.project scratch0]
    ++ (if interpolate then [] else [Call.isValid scratch])
    ++ [Call.distance st.previous scratch]
  if !onManifold || !valid || deviated then
    ({ st with calls := calls1 }, true)
  else
    let newDist := sp.distance scratch toS
    let calls2 := calls1 ++ [Call.distance scratch toS]
    if newDist ≥ st.dist then
      ({ st with calls := calls2 }, true)
    else
      ({ previous := scratch
         dist := newDist
         stateList := st.stateList.map (fun l => l ++ [scratch])
         accepted := st.accepted ++ [scratch]
         calls := calls2 }, false)

/-- The `do … while (dist >= tolerance)` loop (source lines 108-132); `none` when the
fuel does not suffice. -/
def traverseLoop (sp : ProjectedStateSpace S) (toS : S) (interpolate : Bool) :
    Nat → LoopState S → Option (LoopState S)
  | 0, _ => none
  | fuel + 1, st =>
    let r := loopBody sp toS interpolate st
    if r.2 then some r.1
    else if r.1.dist ≥ sp.delta_ then traverseLoop sp toS interpolate fuel r.1
    else some r.1

/-- `ProjectedStateSpace::traverseManifold` (source lines 80-138). -/
def traverseManifold (sp : ProjectedStateSpace S) (fuel : Nat) (fromS toS : S)
    (interpolate : Bool) (stateList : Option (List S)) (endpoints : Bool) :
    Option (Outcome S) :=
  if !sp.isSatisfied fromS then
    some { ret := false, stateList := stateList, previous := fromS, accepted := [],
           calls := [Call.isSatisfied fromS] }
  else
    let stateList1 := stateList.map (fun _ => if endpoints then [fromS] else [])
    let tolerance := sp.delta_
    let dist := sp.distance fromS toS
    let calls0 := [Call.isSatisfied fromS, Call.distance fromS toS]
    if dist ≤ tolerance then
      some { ret := true, stateList := stateList1, previous := fromS, accepted := [],
             calls := calls0 }
    else
      (traverseLoop sp toS interpolate fuel
          { previous := fromS, dist := dist, stateList := stateList1, accepted := [],
            calls := calls0 }).map
        (fun st => { ret := decide (st.dist ≤ tolerance), stateList := st.stateList,
                     previous := st.previous, accepted := st.accepted, calls := st.calls })

/-- The wrapped ambient sampler (`WrapperStateSampler`): each operation overwrites the
output state; `G` is the state of its random number generator. -/
structure StateSampler (S G : Type) where
  sampleUniform : G → S → S × G
  sampleUniformNear : G → S → S → ℚ → S × G
  sampleGaussian : G → S → S → ℚ → S × G

/-- What a sampling call leaves behind: the output state, the generator state and the
log of `project` calls. -/
structure Sampled (S G : Type) where
  state : S
  gen : G
  calls : List (Call S)

/-- `ProjectedStateSampler::sampleUniform` (source lines 51-55). -/
def ProjectedStateSampler.sampleUniform {G : Type} (sp : ProjectedStateSpace S)
    (sampler : StateSampler S G) (g : G) (state : S) : Sampled S G :=
  let r := sampler.sampleUniform g state
  { state := (sp.project r.1).1, gen := r.2, calls := [Call.project r.1] }

/-- `ProjectedStateSampler::sampleUniformNear` (source lines 57-61). -/
def ProjectedStateSampler.sampleUniformNear {G : Type} (sp : ProjectedStateSpace S)
    (sampler : StateSampler S G) (g : G) (state near : S) (distance : ℚ) : Sampled S G :=
  let r := sampler.sampleUniformNear g state near distance
  { state := (sp.project r.1).1, gen := r.2, calls := [Call.project r.1] }

/-- `ProjectedStateSampler::sampleGaussian` (source lines 63-67). -/
def ProjectedStateSampler.sampleGaussian {G : Type} (sp : ProjectedStateSpace S)
    (sampler : StateSampler S G) (g : G) (state mean : S) (stdDev : ℚ) : Sampled S G :=
  let r := sampler.sampleGaussian g state mean stdDev
  { state := (sp.project r.1).1, gen := r.2, calls := [Call.project r.1] }

/-- The real line (rationals) with `|a - b|` as distance and linear interpolation, the
constraint "state must equal 0" whose projection snaps every state to 0 and reports
convergence, and a validity checker that accepts everything. -/
def snapToZero (delta : ℚ) : ProjectedStateSpace ℚ where
  delta_ := delta
  isSatisfied := fun _ => true
  project := fun _ => (0, true)
  distance := fun a b => |a - b|
  interpolate := fun a b t => a + t * (b - a)
  isValid := fun _ => true

/-- The real line with a constraint that is never satisfied and whose projection always
reports failure (leaving the state where it is). -/
def neverSatisfied (delta : ℚ) : ProjectedStateSpace ℚ where
  delta_ := delta
  isSatisfied := fun _ => false
  project := fun s => (s, false)
  distance := fun a b => |a - b|
  interpolate := fun a b t => a + t * (b - a)
  isValid := fun _ => true

/-- The real line with a constraint whose satisfaction test accepts every state but
whose projection always reports failure. -/
def failingProjection (delta : ℚ) : ProjectedStateSpace ℚ where
  delta_ := delta
  isSatisfied := fun _ => true
  project := fun s => (s, false)
  distance := fun a b => |a - b|
  interpolate := fun a b t => a + t * (b - a)
  isValid := fun _ => true

/-- The real line with the trivial constraint: every state is satisfied and projection
leaves the state unchanged and reports success. -/
def freeLine (delta : ℚ) : ProjectedStateSpace ℚ where
  delta_ := delta
  isSatisfied := fun _ => true
  project := fun s => (s, true)
  distance := fun a b => |a - b|
  interpolate := fun a b t => a + t * (b - a)
  isValid := fun _ => true

/-- The real line with a constraint satisfied only at 0 whose projection nevertheless
leaves every state unchanged and reports success. -/
def overconfidentProjection (delta : ℚ) : ProjectedStateSpace ℚ where
  delta_ := delta
  isSatisfied := fun s => decide (s = 0)
  project := fun s => (s, true)
  distance := fun a b => |a - b|
  interpolate := fun a b t => a + t * (b - a)
  isValid := fun _ => true

/-- Whether a logged call is a call of `project`. -/
def Call.isProject : Call S → Bool
  | Call.project _ => true
  | _ => false

/-- The conditions under which the loop body accepts the scratch state `s` computed from
the previously accepted state `prev`: `s` is what `project` makes of the interpolated
state, `project` reported success, the validity check passed (or was skipped), the step
did not deviate by more than `2 * delta_`, and `s` is strictly closer to the target. -/
def AcceptedStep (sp : ProjectedStateSpace S) (toS : S) (interpolate : Bool)
    (prev s : S) : Prop :=
  s = (sp.project (sp.interpolate prev toS (sp.fl (sp.delta_ / sp.distance prev toS)))).1 ∧
  (sp.project (sp.interpolate prev toS (sp.fl (sp.delta_ / sp.distance prev toS)))).2 = true ∧
  (interpolate = true ∨ sp.isValid s = true) ∧
  sp.distance prev s ≤ 2 * sp.delta_ ∧
  sp.distance s toS < sp.distance prev toS

/-- Loop invariant of `traverseManifold`, relative to the start state and to the content
`pre` of the caller's list at loop entry. -/
structure LoopInv (sp : ProjectedStateSpace S) (fromS toS : S) (interpolate : Bool)
    (pre : Option (List S)) (st : LoopState S) : Prop where
  dist_eq : st.dist = sp.distance st.previous toS
  prev_eq : (fromS :: st.accepted).getLast? = some st.previous
  chain : List.Chain' (AcceptedStep sp toS interpolate) (fromS :: st.accepted)
  list_eq : st.stateList = pre.map (fun l => l ++ st.accepted)

/-- What holds of every outcome of `traverseManifold` on a feasible start state. -/
structure OutcomeInv (sp : ProjectedStateSpace S) (fromS toS : S) (interpolate : Bool)
    (stateList : Option (List S)) (endpoints : Bool) (out : Outcome S) : Prop where
  ret_iff : out.ret = true ↔ sp.distance out.previous toS ≤ sp.delta_
  prev_eq : (fromS :: out.accepted).getLast? = some out.previous
  chain : List.Chain' (AcceptedStep sp toS interpolate) (fromS :: out.accepted)
  list_eq : out.stateList =
    stateList.map (fun _ => (if endpoints then [fromS] else []) ++ out.accepted)

/-- The outcome of going from 0 to 2 on the unconstrained line with step 1. -/
def freeLineOutcome : Outcome ℚ :=
  { ret := true, stateList := some [0, 1, 2], previous := 2, accepted := [1, 2],
    calls := [Call.isSatisfied 0, Call.distance 0 2,
      Call.interpolate 0 2 (1 / 2), Call.project 1, Call.isValid 1,
      Call.distance 0 1, Call.distance 1 2,
      Call.interpolate 1 2 1, Call.project 2, Call.isValid 2,
      Call.distance 1 2, Call.distance 2 2] }

/-- The outcome of going from 0 to 2 with step 1 under the overconfident projection. -/
def overconfidentOutcome : Outcome ℚ :=
  { ret := true, stateList := some [0, 1, 2], previous := 2, accepted := [1, 2],
    calls := [Call.isSatisfied 0, Call.distance 0 2,
      Call.interpolate 0 2 (1 / 2), Call.project 1, Call.isValid 1,
      Call.distance 0 1, Call.distance 1 2,
      Call.interpolate 1 2 1, Call.project 2, Call.isValid 2,
      Call.distance 1 2, Call.distance 2 2] }

/-- Whether a logged call is a call of the ambient `interpolate`. -/
def Call.isInterpolate : Call S → Bool
  | Call.interpolate _ _ _ => true
  | _ => false

/-- The number of iterations of the stepping loop a call has run: every iteration calls
`project` exactly once, and nothing else in `traverseManifold` does. -/
def Outcome.iterations (out : Outcome S) : Nat :=
  out.calls.countP Call.isProject

/-- What the caller can observe of an outcome, leaving the call log out: the returned
boolean, the list, the last accepted state and the accepted states. -/
def Outcome.observable (out : Outcome S) : Bool × Option (List S) × S × List S :=
  (out.ret, out.stateList, out.previous, out.accepted)

/-- What an outcome says about the traversal itself, leaving out the list and the call
log: the returned boolean, the last accepted state and the accepted states. -/
def Outcome.traversal (out : Outcome S) : Bool × S × List S :=
  (out.ret, out.previous, out.accepted)

/-- The same space with another state validity checker installed in `si_`. -/
def withValidity (sp : ProjectedStateSpace S) (v : S → Bool) : ProjectedStateSpace S :=
  { sp with isValid := v }

/-- The scratch state of the step that starts at `prev` with `dist = d`: the ambient
interpolation at parameter `delta_ / d`, then `project` (state and flag). -/
def scratchOf (sp : ProjectedStateSpace S) (toS prev : S) (d : ℚ) : S × Bool :=
  sp.project (sp.interpolate prev toS (sp.fl (sp.delta_ / d)))

/-- Whether the loop body, started at `prev` with `dist = d`, reaches its end without
taking either `break`. -/
def stepAccepts (sp : ProjectedStateSpace S) (toS : S) (interpolate : Bool)
    (prev : S) (d : ℚ) : Bool :=
  (scratchOf sp toS prev d).2 && (interpolate || sp.isValid (scratchOf sp toS prev d).1)
    && !decide (sp.distance prev (scratchOf sp toS prev d).1 > 2 * sp.delta_)
    && !decide (sp.distance (scratchOf sp toS prev d).1 toS ≥ d)

/-- The step that starts at `prev` takes the first `break` (source line 118): projection
failed, the validity check failed, or the scratch state deviated by more than
`2 * delta_`. -/
def StepRejected (sp : ProjectedStateSpace S) (toS : S) (interpolate : Bool)
    (prev : S) : Prop :=
  (scratchOf sp toS prev (sp.distance prev toS)).2 = false ∨
  (interpolate = false ∧ sp.isValid (scratchOf sp toS prev (sp.distance prev toS)).1 = false) ∨
  sp.distance prev (scratchOf sp toS prev (sp.distance prev toS)).1 > 2 * sp.delta_

/-- The step that starts at `prev` takes the second `break` (source line 123): it passed
the three checks of line 117 but the scratch state is no closer to `to`. -/
def StepNoProgress (sp : ProjectedStateSpace S) (toS : S) (interpolate : Bool)
    (prev : S) : Prop :=
  ¬ StepRejected sp toS interpolate prev ∧
  sp.distance (scratchOf sp toS prev (sp.distance prev toS)).1 toS ≥ sp.distance prev toS

/-- The dynamic type of the state space a `SpaceInformation` points to, as far as
`dynamic_cast<ProjectedStateSpace *>` can tell. -/
inductive StateSpaceKind where
  | projectedStateSpace
  | otherStateSpace
  deriving DecidableEq

/-- A `SpaceInformation`, reduced to what `checkSpace` reads: `getStateSpace().get()`,
which is a null pointer (`none`) or points to a state space of some dynamic type. -/
structure SpaceInformation where
  stateSpace : Option StateSpaceKind

/-- The message of the exception thrown by `checkSpace`. -/
def checkSpaceMessage : String :=
  "ompl::base::ProjectedStateSpace(): si needs to use an ProjectedStateSpace!"

/-- `ProjectedStateSpace::checkSpace` (source lines 73-78): `Except.error` is the thrown
`ompl::Exception`, `Except.ok ()` the normal return. -/
def checkSpace (si : SpaceInformation) : Except String Unit :=
  match si.stateSpace with
  | some StateSpaceKind.projectedStateSpace => Except.ok ()
  | _ => Except.error checkSpaceMessage

/-- The real line with a constraint that every state satisfies and a projection that
pulls every state back by 1/2 and reports success. -/
def laggingProjection (delta : ℚ) : ProjectedStateSpace ℚ where
  delta_ := delta
  isSatisfied := fun _ => true
  project := fun s => (s - 1 / 2, true)
  distance := fun a b => |a - b|
  interpolate := fun a b t => a + t * (b - a)
  isValid := fun _ => true

/-- The unconstrained real line with a validity checker that rejects the state 2 and
accepts every other state. -/
def blockedTarget (delta : ℚ) : ProjectedStateSpace ℚ where
  delta_ := delta
  isSatisfied := fun _ => true
  project := fun s => (s, true)
  distance := fun a b => |a - b|
  interpolate := fun a b t => a + t * (b - a)
  isValid := fun s => decide (s ≠ 2)

/-- Every logged `interpolate` call is `interpolate(a, to, delta_ / distance(a, to))` for
a state `a` that is `from` or an accepted state no closer than `delta_` to the target. -/
def InterpolateCallsOK (sp : ProjectedStateSpace S) (fromS toS : S)
    (calls : List (Call S)) (accepted : List S) : Prop :=
  ∀ a b t, Call.interpolate a b t ∈ calls →
    b = toS ∧ t = sp.fl (sp.delta_ / sp.distance a toS) ∧ sp.delta_ ≤ sp.distance a toS ∧
    a ∈ fromS :: accepted

/-- What holds of the loop state whenever the body is about to run: the remaining
distance is at least `delta_`, every iteration so far has accepted, and the logged
`interpolate` calls are well formed. -/
structure EntryInv (sp : ProjectedStateSpace S) (fromS toS : S) (st : LoopState S) :
    Prop where
  ge : sp.delta_ ≤ st.dist
  count : st.calls.countP Call.isProject = st.accepted.length
  calls_ok : InterpolateCallsOK sp fromS toS st.calls st.accepted

/-- What holds of the loop state when the loop is left: either the last iteration took a
`break` (one more iteration than accepted states, from a state no closer than `delta_`
whose step does not accept), or every iteration accepted and the last accepted state is
strictly closer than `delta_`. -/
structure ExitInv (sp : ProjectedStateSpace S) (fromS toS : S) (interpolate : Bool)
    (r : LoopState S) : Prop where
  calls_ok : InterpolateCallsOK sp fromS toS r.calls r.accepted
  stop : (r.calls.countP Call.isProject = r.accepted.length + 1 ∧ sp.delta_ ≤ r.dist ∧
      stepAccepts sp toS interpolate r.previous r.dist = false) ∨
    (r.calls.countP Call.isProject = r.accepted.length ∧ r.dist < sp.delta_ ∧
      r.accepted ≠ [])

/-- The outcome of going from 0 to 2 with step 1 when the validity checker rejects the
state 2: the state 1 is accepted, the next step is rejected. -/
def blockedOutcome : Outcome ℚ :=
  { ret := true, stateList := some [0, 1], previous := 1, accepted := [1],
    calls := [Call.isSatisfied 0, Call.distance 0 2,
      Call.interpolate 0 2 (1 / 2), Call.project 1, Call.isValid 1,
      Call.distance 0 1, Call.distance 1 2,
      Call.interpolate 1 2 1, Call.project 2, Call.isValid 2,
      Call.distance 1 2] }

/-- The unconstrained real line with step `2^-600` and a rounding that keeps one effect
of `double` division: a quotient of magnitude at most `2^-1075` (half the smallest
positive double) is rounded to 0, every other value is left as it is. -/
def underflowLine : ProjectedStateSpace ℚ where
  delta_ := (1 / 2) ^ 600
  isSatisfied := fun _ => true
  project := fun s => (s, true)
  distance := fun a b => |a - b|
  interpolate := fun a b t => a + t * (b - a)
  isValid := fun _ => true
  fl := fun x => if |x| ≤ (1 / 2) ^ 1075 then 0 else x

/-- The outcome of going from 0 to `2^600` on `underflowLine`: the quotient `2^-1200`
is rounded to 0, the scratch state is `from` again and the first step makes no
progress. -/
def underflowOutcome : Outcome ℚ :=
  { ret := false, stateList := some [0], previous := 0, accepted := [],
    calls := [Call.isSatisfied 0, Call.distance 0 (2 ^ 600),
      Call.interpolate 0 (2 ^ 600) 0, Call.project 0, Call.isValid 0,
      Call.distance 0 0, Call.distance 0 (2 ^ 600)] }

/-! ## The loop invariant -/

theorem loopBody_inv (sp : ProjectedStateSpace S) (fromS toS : S) (interpolate : Bool)
    (pre : Option (List S)) (st : LoopState S)
    (h : LoopInv sp fromS toS interpolate pre st) :
    LoopInv sp fromS toS interpolate pre (loopBody sp toS interpolate st).1 := by
  obtain ⟨hd, hp, hc, hl⟩ := h
  unfold loopBody
  simp only []
  split
  · exact ⟨hd, hp, hc, hl⟩
  · rename_i h1
    split
    · exact ⟨hd, hp, hc, hl⟩
    · rename_i h2
      refine ⟨rfl, ?_, ?_, ?_⟩
      · show (fromS :: (st.accepted ++ [_])).getLast? = _
        rw [← List.cons_append, List.getLast?_append]
        simp
      · show List.Chain' _ (fromS :: (st.accepted ++ [_]))
        rw [← List.cons_append, List.chain'_append]
        refine ⟨hc, List.chain'_singleton _, ?_⟩
        intro x hx y hy
        rw [hp] at hx
        simp at hx hy
        subst hx hy
        simp only [Bool.or_eq_true, Bool.not_eq_true', decide_eq_true_eq, not_or,
          Bool.not_eq_false, not_lt] at h1
        simp only [hd] at h1 h2 ⊢
        refine ⟨rfl, h1.1.1, ?_, h1.2, not_le.mp h2⟩
        simpa using h1.1.2
      · simp only [hl]
        cases pre <;> simp

theorem traverseLoop_inv (sp : ProjectedStateSpace S) (fromS toS : S) (interpolate : Bool)
    (pre : Option (List S)) :
    ∀ (fuel : Nat) (st st' : LoopState S),
      traverseLoop sp toS interpolate fuel st = some st' →
      LoopInv sp fromS toS interpolate pre st →
      LoopInv sp fromS toS interpolate pre st' := by
  intro fuel
  induction fuel with
  | zero => intro st st' h; simp [traverseLoop] at h
  | succ n ih =>
    intro st st' h hinv
    have hb := loopBody_inv sp fromS toS interpolate pre st hinv
    unfold traverseLoop at h
    simp only [] at h
    split_ifs at h with h1 h2
    · cases h; exact hb
    · exact ih _ _ h hb
    · cases h; exact hb

theorem traverseManifold_inv (sp : ProjectedStateSpace S) (fuel : Nat) (fromS toS : S)
    (interpolate : Bool) (stateList : Option (List S)) (endpoints : Bool)
    (out : Outcome S) (hsat : sp.isSatisfied fromS = true)
    (h : traverseManifold sp fuel fromS toS interpolate stateList endpoints = some out) :
    OutcomeInv sp fromS toS interpolate stateList endpoints out := by
  unfold traverseManifold at h
  simp only [hsat, Bool.not_true, Bool.false_eq_true, ↓reduceIte] at h
  split at h
  · rename_i h1
    cases h
    exact ⟨by simpa using h1, rfl, List.chain'_singleton _, by simp⟩
  · rw [Option.map_eq_some'] at h
    obtain ⟨st, hst, rfl⟩ := h
    have hinv := traverseLoop_inv sp fromS toS interpolate
      (stateList.map (fun _ => if endpoints then [fromS] else [])) fuel _ st hst
      ⟨rfl, rfl, List.chain'_singleton _, by cases stateList <;> simp⟩
    obtain ⟨hd, hp, hc, hl⟩ := hinv
    refine ⟨?_, hp, hc, ?_⟩
    · simp [hd]
    · simp only [hl]
      cases stateList <;> simp

/-- More fuel does not change a result once the loop has returned one. -/
theorem traverseLoop_fuel_succ (sp : ProjectedStateSpace S) (toS : S) (interpolate : Bool) :
    ∀ (fuel : Nat) (st r : LoopState S),
      traverseLoop sp toS interpolate fuel st = some r →
      traverseLoop sp toS interpolate (fuel + 1) st = some r := by
  intro fuel
  induction fuel with
  | zero => intro st r h; simp [traverseLoop] at h
  | succ n ih =>
    intro st r h
    rw [traverseLoop] at h ⊢
    by_cases h1 : (loopBody sp toS interpolate st).2 = true
    · simpa [h1] using h
    · by_cases h2 : (loopBody sp toS interpolate st).1.dist ≥ sp.delta_
      · simp only [h1, h2, if_true, if_false] at h ⊢
        exact ih _ _ h
      · simpa [h1, h2] using h

/-- More fuel does not change an outcome `traverseManifold` has returned. -/
theorem traverseManifold_fuel_succ (sp : ProjectedStateSpace S) (fuel : Nat)
    (fromS toS : S) (interpolate : Bool) (stateList : Option (List S)) (endpoints : Bool)
    (out : Outcome S)
    (h : traverseManifold sp fuel fromS toS interpolate stateList endpoints = some out) :
    traverseManifold sp (fuel + 1) fromS toS interpolate stateList endpoints = some out := by
  unfold traverseManifold at h ⊢
  by_cases h0 : (!sp.isSatisfied fromS) = true
  · simpa [h0] using h
  · by_cases h1 : sp.distance fromS toS ≤ sp.delta_
    · simpa [h0, h1] using h
    · simp only [h0, h1, if_false, Bool.false_eq_true] at h ⊢
      rw [Option.map_eq_some'] at h ⊢
      obtain ⟨st, hst, rfl⟩ := h
      exact ⟨st, traverseLoop_fuel_succ sp toS interpolate fuel _ st hst, rfl⟩

theorem freeLine_run :
    traverseManifold (freeLine 1) 2 0 2 false (some [9]) true = some freeLineOutcome := by
  norm_num [traverseManifold, traverseLoop, loopBody, freeLine, freeLineOutcome]

/-- If every step of a chain establishes `P` of its second component, then `P` holds of
every element after the head. -/
theorem chain_forall_tail {R : S → S → Prop} {P : S → Prop}
    (hR : ∀ a b, R a b → P b) :
    ∀ (l : List S) (a : S), List.Chain' R (a :: l) → ∀ x ∈ l, P x := by
  intro l
  induction l with
  | nil => intro a _ x hx; simp at hx
  | cons b t ih =>
    intro a hc x hx
    rw [List.chain'_cons] at hc
    rcases List.mem_cons.mp hx with rfl | hx
    · exact hR _ _ hc.1
    · exact ih b hc.2 x hx

theorem overconfident_run :
    traverseManifold (overconfidentProjection 1) 2 0 2 false (some [9]) true =
      some overconfidentOutcome := by
  norm_num [traverseManifold, traverseLoop, loopBody, overconfidentProjection,
    overconfidentOutcome]

/-! ## Precondition, success criterion, trivial shortcut -/

/-- C1 (as stated, refuted): the start state 0 is infeasible and the caller's list holds
`[7]` before the call; the call returns false and the list still holds `[7]` afterwards,
so the path left in the list is neither empty nor absent. -/
theorem traverseManifold_infeasible_keeps_stale_list :
    (neverSatisfied (1 / 10)).isSatisfied 0 = false ∧
    ∃ out, traverseManifold (neverSatisfied (1 / 10)) 1 0 5 false (some [7]) true = some out ∧
      out.ret = false ∧ out.stateList = some [7] ∧
      out.stateList ≠ some [] ∧ out.stateList ≠ none := by
  refine ⟨rfl, _, rfl, rfl, rfl, ?_, ?_⟩ <;> simp

/-- C1 (amended): when `isSatisfied(from)` is false, `traverseManifold` returns false
whatever `to`, the flags and the fuel are, leaves the caller's list exactly as it was
(so it is empty or absent when it was so before the call), accepts no state, and the
only collaborator call it makes is `isSatisfied(from)`: no projection, interpolation,
distance or validity check. -/
theorem traverseManifold_infeasible_from (sp : ProjectedStateSpace S) (fuel : Nat)
    (fromS toS : S) (interpolate : Bool) (stateList : Option (List S)) (endpoints : Bool)
    (hsat : sp.isSatisfied fromS = false) :
    traverseManifold sp fuel fromS toS interpolate stateList endpoints =
      some { ret := false, stateList := stateList, previous := fromS, accepted := [],
             calls := [Call.isSatisfied fromS] } := by
  simp [traverseManifold, hsat]

/-- Witness for C1 (amended) on the never-satisfied constraint, with an empty list. -/
theorem traverseManifold_infeasible_from_witness :
    (neverSatisfied (1 / 10)).isSatisfied 0 = false ∧
    traverseManifold (neverSatisfied (1 / 10)) 0 0 5 false (some []) true =
      some { ret := false, stateList := some [], previous := 0, accepted := [],
             calls := [Call.isSatisfied 0] } :=
  ⟨rfl, traverseManifold_infeasible_from (neverSatisfied (1 / 10)) 0 0 5 false (some []) true rfl⟩

/-- C2: on a feasible start state, whenever `traverseManifold` returns, it returns true
if and only if `distance(last, to) <= delta_`, where `last` is the last accepted state
(or `from` when no state was accepted); and when it returns true with a list supplied
and endpoints requested, the last state of the returned path is within `delta_` of `to`. -/
theorem traverseManifold_success_iff (sp : ProjectedStateSpace S) (fuel : Nat)
    (fromS toS : S) (interpolate : Bool) (stateList : Option (List S)) (endpoints : Bool)
    (out : Outcome S) (hsat : sp.isSatisfied fromS = true)
    (h : traverseManifold sp fuel fromS toS interpolate stateList endpoints = some out) :
    (fromS :: out.accepted).getLast? = some out.previous ∧
    (out.ret = true ↔ sp.distance out.previous toS ≤ sp.delta_) ∧
    (stateList ≠ none → endpoints = true → out.ret = true →
      ∃ path last, out.stateList = some path ∧ path.getLast? = some last ∧
        sp.distance last toS ≤ sp.delta_) := by
  obtain ⟨hr, hp, _, hl⟩ := traverseManifold_inv sp fuel fromS toS interpolate stateList
    endpoints out hsat h
  refine ⟨hp, hr, ?_⟩
  intro hne he hret
  obtain ⟨l, rfl⟩ := Option.ne_none_iff_exists'.mp hne
  refine ⟨fromS :: out.accepted, out.previous, ?_, hp, hr.mp hret⟩
  simp [hl, he]

/-- Witness for C2: on the unconstrained line with step 1, going from 0 to 2 accepts 1
and then 2 and returns true with the path `[0, 1, 2]`. -/
theorem traverseManifold_success_iff_witness :
    (freeLine 1).isSatisfied 0 = true ∧
    traverseManifold (freeLine 1) 2 0 2 false (some [9]) true = some freeLineOutcome ∧
    ((0 : ℚ) :: freeLineOutcome.accepted).getLast? = some freeLineOutcome.previous ∧
    (freeLineOutcome.ret = true ↔
      (freeLine 1).distance freeLineOutcome.previous 2 ≤ (freeLine 1).delta_) ∧
    ((some [(9 : ℚ)]) ≠ none → true = true → freeLineOutcome.ret = true →
      ∃ path last, freeLineOutcome.stateList = some path ∧ path.getLast? = some last ∧
        (freeLine 1).distance last 2 ≤ (freeLine 1).delta_) :=
  ⟨rfl, freeLine_run,
    traverseManifold_success_iff (freeLine 1) 2 0 2 false (some [9]) true freeLineOutcome rfl
      freeLine_run⟩

/-- C3: on a feasible start state with `distance(from, to) <= delta_` (equality included),
`traverseManifold` returns true for every fuel, without running the loop: its only
collaborator calls are `isSatisfied(from)` and `distance(from, to)`, no state is accepted,
and a supplied list is left holding exactly `[from]` when endpoints are requested and
nothing otherwise. Consequently, if moreover `distance(from, from) = 0` and
`delta_ >= 0`, going from `from` to itself succeeds with at most one recorded state. -/
theorem traverseManifold_trivial_shortcut (sp : ProjectedStateSpace S) (fuel : Nat)
    (fromS toS : S) (interpolate : Bool) (stateList : Option (List S)) (endpoints : Bool)
    (hsat : sp.isSatisfied fromS = true) (hd : sp.distance fromS toS ≤ sp.delta_) :
    traverseManifold sp fuel fromS toS interpolate stateList endpoints =
      some { ret := true
             stateList := stateList.map (fun _ => if endpoints then [fromS] else [])
             previous := fromS, accepted := []
             calls := [Call.isSatisfied fromS, Call.distance fromS toS] } ∧
    (sp.distance fromS fromS = 0 → 0 ≤ sp.delta_ →
      ∃ out, traverseManifold sp fuel fromS fromS interpolate stateList endpoints = some out ∧
        out.ret = true ∧ out.accepted = [] ∧
        ∀ path, out.stateList = some path → path.length ≤ 1) := by
  constructor
  · simp [traverseManifold, hsat, hd]
  · intro h0 hdel
    refine ⟨_, by simp only [traverseManifold, hsat, h0, hdel]; simp; rfl, rfl, rfl, ?_⟩
    intro path hpath
    cases stateList with
    | none => simp at hpath
    | some l =>
      simp only [Option.map_some', Option.some.injEq] at hpath
      subst hpath
      split <;> simp

/-- Witness for C3: on the unconstrained line with step 1/10, the target 1/10 is at
distance exactly `delta_` from 0. -/
theorem traverseManifold_trivial_shortcut_witness :
    (freeLine (1 / 10)).isSatisfied 0 = true ∧
    (freeLine (1 / 10)).distance 0 (1 / 10) ≤ (freeLine (1 / 10)).delta_ ∧
    traverseManifold (freeLine (1 / 10)) 0 0 (1 / 10) false (some [9]) true =
      some { ret := true, stateList := some [0], previous := 0, accepted := [],
             calls := [Call.isSatisfied 0, Call.distance 0 (1 / 10)] } :=
  ⟨rfl, by norm_num [freeLine, abs_le],
    (traverseManifold_trivial_shortcut (freeLine (1 / 10)) 0 0 (1 / 10) false (some [9]) true
      rfl (by norm_num [freeLine, abs_le])).1⟩

/-! ## The recorded path and the accepted states -/

/-- C4: on a feasible start state with a list supplied, whenever `traverseManifold`
returns (true or false), the previous content of the list is gone and the list holds
`[from]` (if endpoints are requested, else nothing) followed by exactly the accepted
states in acceptance order; each of them is a projected scratch state that passed every
check of its step, so neither `to` itself nor a rejected scratch state is recorded. -/
theorem traverseManifold_output_sequence (sp : ProjectedStateSpace S) (fuel : Nat)
    (fromS toS : S) (interpolate : Bool) (l : List S) (endpoints : Bool)
    (out : Outcome S) (hsat : sp.isSatisfied fromS = true)
    (h : traverseManifold sp fuel fromS toS interpolate (some l) endpoints = some out) :
    out.stateList = some ((if endpoints then [fromS] else []) ++ out.accepted) ∧
    List.Chain' (AcceptedStep sp toS interpolate) (fromS :: out.accepted) := by
  obtain ⟨_, _, hc, hl⟩ := traverseManifold_inv sp fuel fromS toS interpolate (some l)
    endpoints out hsat h
  exact ⟨by simpa using hl, hc⟩

/-- Witness for C4: the run from 0 to 2 on the unconstrained line, started with the
stale list `[9]`. -/
theorem traverseManifold_output_sequence_witness :
    (freeLine 1).isSatisfied 0 = true ∧
    traverseManifold (freeLine 1) 2 0 2 false (some [9]) true = some freeLineOutcome ∧
    freeLineOutcome.stateList =
      some ((if true = true then [(0 : ℚ)] else []) ++ freeLineOutcome.accepted) ∧
    List.Chain' (AcceptedStep (freeLine 1) 2 false) (0 :: freeLineOutcome.accepted) :=
  ⟨rfl, freeLine_run,
    traverseManifold_output_sequence (freeLine 1) 2 0 2 false [9] true freeLineOutcome rfl
      freeLine_run⟩

/-- C5: on a feasible start state, whenever `traverseManifold` returns (true or false),
the distance to `to` strictly decreases along the sequence `from, accepted_1,
accepted_2, …` of accepted states. -/
theorem traverseManifold_monotonic_progress (sp : ProjectedStateSpace S) (fuel : Nat)
    (fromS toS : S) (interpolate : Bool) (stateList : Option (List S)) (endpoints : Bool)
    (out : Outcome S) (hsat : sp.isSatisfied fromS = true)
    (h : traverseManifold sp fuel fromS toS interpolate stateList endpoints = some out) :
    List.Chain' (fun p q => sp.distance q toS < sp.distance p toS)
      (fromS :: out.accepted) := by
  obtain ⟨_, _, hc, _⟩ := traverseManifold_inv sp fuel fromS toS interpolate stateList
    endpoints out hsat h
  exact hc.imp (fun p q hpq => hpq.2.2.2.2)

/-- Witness for C5: the run from 0 to 2 on the unconstrained line. -/
theorem traverseManifold_monotonic_progress_witness :
    (freeLine 1).isSatisfied 0 = true ∧
    traverseManifold (freeLine 1) 2 0 2 false (some [9]) true = some freeLineOutcome ∧
    List.Chain' (fun p q => (freeLine 1).distance q 2 < (freeLine 1).distance p 2)
      (0 :: freeLineOutcome.accepted) :=
  ⟨rfl, freeLine_run,
    traverseManifold_monotonic_progress (freeLine 1) 2 0 2 false (some [9]) true
      freeLineOutcome rfl freeLine_run⟩

/-- C6: on a feasible start state, whenever `traverseManifold` returns, every accepted
state is at distance at most `2 * delta_` from the state accepted just before it (from
`from` for the first one); so consecutive states of a path collected with endpoints are
at most `2 * delta_` apart. -/
theorem traverseManifold_deviation_bound (sp : ProjectedStateSpace S) (fuel : Nat)
    (fromS toS : S) (interpolate : Bool) (stateList : Option (List S)) (endpoints : Bool)
    (out : Outcome S) (hsat : sp.isSatisfied fromS = true)
    (h : traverseManifold sp fuel fromS toS interpolate stateList endpoints = some out) :
    List.Chain' (fun p q => sp.distance p q ≤ 2 * sp.delta_) (fromS :: out.accepted) ∧
    (stateList ≠ none → endpoints = true →
      ∃ path, out.stateList = some path ∧
        List.Chain' (fun p q => sp.distance p q ≤ 2 * sp.delta_) path) := by
  obtain ⟨_, _, hc, hl⟩ := traverseManifold_inv sp fuel fromS toS interpolate stateList
    endpoints out hsat h
  have hdev : List.Chain' (fun p q => sp.distance p q ≤ 2 * sp.delta_)
      (fromS :: out.accepted) := hc.imp (fun p q hpq => hpq.2.2.2.1)
  refine ⟨hdev, ?_⟩
  intro hne he
  obtain ⟨l, rfl⟩ := Option.ne_none_iff_exists'.mp hne
  exact ⟨fromS :: out.accepted, by simp [hl, he], hdev⟩

/-- Witness for C6: the run from 0 to 2 on the unconstrained line. -/
theorem traverseManifold_deviation_bound_witness :
    (freeLine 1).isSatisfied 0 = true ∧
    traverseManifold (freeLine 1) 2 0 2 false (some [9]) true = some freeLineOutcome ∧
    List.Chain' (fun p q => (freeLine 1).distance p q ≤ 2 * (freeLine 1).delta_)
      (0 :: freeLineOutcome.accepted) ∧
    ((some [(9 : ℚ)]) ≠ none → true = true →
      ∃ path, freeLineOutcome.stateList = some path ∧
        List.Chain' (fun p q => (freeLine 1).distance p q ≤ 2 * (freeLine 1).delta_) path) :=
  ⟨rfl, freeLine_run,
    traverseManifold_deviation_bound (freeLine 1) 2 0 2 false (some [9]) true
      freeLineOutcome rfl freeLine_run⟩

/-- C7 (as stated, refuted): with a projection that reports success on a state the
satisfaction test rejects, the traversal from 0 to 2 returns true and both accepts and
records the state 1, although `isSatisfied(1)` is false. -/
theorem traverseManifold_accepts_unsatisfied_state :
    (overconfidentProjection 1).isSatisfied 0 = true ∧
    ∃ out path,
      traverseManifold (overconfidentProjection 1) 2 0 2 false (some [9]) true = some out ∧
      out.stateList = some path ∧ 1 ∈ out.accepted ∧ 1 ∈ path ∧
      (overconfidentProjection 1).isSatisfied 1 = false := by
  refine ⟨by simp [overconfidentProjection], overconfidentOutcome, [0, 1, 2],
    overconfident_run, rfl, ?_, ?_, ?_⟩
  · simp [overconfidentOutcome]
  · simp
  · simp [overconfidentProjection]

/-- C7 (amended): provided that whenever `project` reports success the state it leaves
passes `isSatisfied`, every state accepted during a traversal from a feasible start
state, and every state of the returned path (the copy of `from` included), passes
`isSatisfied`. -/
theorem traverseManifold_accepted_satisfied (sp : ProjectedStateSpace S) (fuel : Nat)
    (fromS toS : S) (interpolate : Bool) (stateList : Option (List S)) (endpoints : Bool)
    (out : Outcome S) (hsat : sp.isSatisfied fromS = true)
    (hproj : ∀ s, (sp.project s).2 = true → sp.isSatisfied (sp.project s).1 = true)
    (h : traverseManifold sp fuel fromS toS interpolate stateList endpoints = some out) :
    (∀ s ∈ fromS :: out.accepted, sp.isSatisfied s = true) ∧
    (∀ path, out.stateList = some path → ∀ s ∈ path, sp.isSatisfied s = true) := by
  obtain ⟨_, _, hc, hl⟩ := traverseManifold_inv sp fuel fromS toS interpolate stateList
    endpoints out hsat h
  have hacc : ∀ s ∈ out.accepted, sp.isSatisfied s = true :=
    chain_forall_tail (R := AcceptedStep sp toS interpolate)
      (fun a b hab => by rw [hab.1]; exact hproj _ hab.2.1) out.accepted fromS hc
  have hall : ∀ s ∈ fromS :: out.accepted, sp.isSatisfied s = true := by
    intro s hs
    rcases List.mem_cons.mp hs with rfl | hs
    · exact hsat
    · exact hacc s hs
  refine ⟨hall, ?_⟩
  intro path hpath s hs
  rw [hl] at hpath
  cases stateList with
  | none => simp at hpath
  | some l =>
    simp only [Option.map_some', Option.some.injEq] at hpath
    subst hpath
    rcases List.mem_append.mp hs with hs | hs
    · split at hs
      · simp at hs; subst hs; exact hsat
      · simp at hs
    · exact hacc s hs

/-- Witness for C7 (amended): the run from 0 to 2 on the unconstrained line, whose
satisfaction test accepts every state. -/
theorem traverseManifold_accepted_satisfied_witness :
    (freeLine 1).isSatisfied 0 = true ∧
    (∀ s, ((freeLine 1).project s).2 = true →
      (freeLine 1).isSatisfied ((freeLine 1).project s).1 = true) ∧
    traverseManifold (freeLine 1) 2 0 2 false (some [9]) true = some freeLineOutcome ∧
    (∀ s ∈ (0 : ℚ) :: freeLineOutcome.accepted, (freeLine 1).isSatisfied s = true) ∧
    (∀ path, freeLineOutcome.stateList = some path →
      ∀ s ∈ path, (freeLine 1).isSatisfied s = true) :=
  ⟨rfl, fun _ _ => rfl, freeLine_run,
    traverseManifold_accepted_satisfied (freeLine 1) 2 0 2 false (some [9]) true
      freeLineOutcome rfl (fun _ _ => rfl) freeLine_run⟩

/-! ## Scenarios -/

/-- C8 (as stated, refuted): in the snap-to-zero scenario with `delta_ = 1/10`, the call
`traverseManifold(0, 5, false, list, true)` never returns success, whatever the fuel. -/
theorem snapToZero_traverse_not_success :
    ¬ ∃ fuel out,
      traverseManifold (snapToZero (1 / 10)) fuel 0 5 false (some []) true = some out ∧
      out.ret = true := by
  rintro ⟨fuel, out, h, hr⟩
  cases fuel with
  | zero =>
    have h0 : traverseManifold (snapToZero (1 / 10)) 0 0 5 false (some []) true = none := by
      norm_num [traverseManifold, traverseLoop, snapToZero]
    rw [h0] at h
    cases h
  | succ n =>
    norm_num [traverseManifold, traverseLoop, loopBody, snapToZero] at h
    rw [← h] at hr
    simp at hr

/-- C8 (amended): in the snap-to-zero scenario with `delta_ = 1/10`, the call
`traverseManifold(0, 5, false, list, true)` terminates after a single loop iteration
(the projected scratch state 0 is no closer to 5 than `from`), returns false, and leaves
the path `[0]`, whose every state equals 0. -/
theorem snapToZero_traverse_fails_with_zero_path (fuel : Nat) (l : List ℚ) :
    traverseManifold (snapToZero (1 / 10)) (fuel + 1) 0 5 false (some l) true =
      some { ret := false, stateList := some [0], previous := 0, accepted := [],
             calls := [Call.isSatisfied 0, Call.distance 0 5,
               Call.interpolate 0 5 (1 / 50), Call.project (1 / 10), Call.isValid 0,
               Call.distance 0 0, Call.distance 0 5] } := by
  norm_num [traverseManifold, traverseLoop, loopBody, snapToZero]

/-- C9: on a feasible start state farther than `delta_` from `to`, if `project` reports
failure on every state, then with any fuel of at least one iteration `traverseManifold`
runs the loop body exactly once (one `interpolate`, one `project`, the validity check
unless skipped, one deviation `distance`), returns false, accepts nothing, and leaves a
supplied list holding `[from]` when endpoints are requested and nothing otherwise. -/
theorem traverseManifold_failed_projection_no_retry (sp : ProjectedStateSpace S)
    (fuel : Nat) (fromS toS : S) (interpolate : Bool) (stateList : Option (List S))
    (endpoints : Bool) (hsat : sp.isSatisfied fromS = true)
    (hd : sp.delta_ < sp.distance fromS toS)
    (hproj : ∀ s, (sp.project s).2 = false) :
    ∃ out, traverseManifold sp (fuel + 1) fromS toS interpolate stateList endpoints =
        some out ∧
      out.ret = false ∧
      out.stateList = stateList.map (fun _ => if endpoints then [fromS] else []) ∧
      out.accepted = [] ∧ out.previous = fromS ∧
      out.calls = [Call.isSatisfied fromS, Call.distance fromS toS,
          Call.interpolate fromS toS (sp.fl (sp.delta_ / sp.distance fromS toS)),
          Call.project (sp.interpolate fromS toS (sp.fl (sp.delta_ / sp.distance fromS toS)))]
        ++ (if interpolate then [] else
          [Call.isValid
            (sp.project (sp.interpolate fromS toS (sp.fl (sp.delta_ / sp.distance fromS toS)))).1])
        ++ [Call.distance fromS
            (sp.project (sp.interpolate fromS toS (sp.fl (sp.delta_ / sp.distance fromS toS)))).1] ∧
      out.calls.countP Call.isProject = 1 := by
  have hnd : ¬ sp.distance fromS toS ≤ sp.delta_ := not_le.mpr hd
  have heq : traverseManifold sp (fuel + 1) fromS toS interpolate stateList endpoints =
      some { ret := false
             stateList := stateList.map (fun _ => if endpoints then [fromS] else [])
             previous := fromS, accepted := []
             calls := [Call.isSatisfied fromS, Call.distance fromS toS,
                 Call.interpolate fromS toS (sp.fl (sp.delta_ / sp.distance fromS toS)),
                 Call.project (sp.interpolate fromS toS (sp.fl (sp.delta_ / sp.distance fromS toS)))]
               ++ (if interpolate then [] else
                 [Call.isValid (sp.project
                   (sp.interpolate fromS toS (sp.fl (sp.delta_ / sp.distance fromS toS)))).1])
               ++ [Call.distance fromS (sp.project
                   (sp.interpolate fromS toS (sp.fl (sp.delta_ / sp.distance fromS toS)))).1] } := by
    simp only [traverseManifold, traverseLoop, loopBody, hsat, hnd, hproj]
    simp [hd]
  refine ⟨_, heq, rfl, rfl, rfl, rfl, rfl, ?_⟩
  cases interpolate <;> simp [List.countP_cons, Call.isProject]

/-- Witness for C9: the always-failing projection on the line, from 0 to 5 with step
1/10. -/
theorem traverseManifold_failed_projection_no_retry_witness :
    (failingProjection (1 / 10)).isSatisfied 0 = true ∧
    (failingProjection (1 / 10)).delta_ < (failingProjection (1 / 10)).distance 0 5 ∧
    (∀ s, ((failingProjection (1 / 10)).project s).2 = false) ∧
    ∃ out, traverseManifold (failingProjection (1 / 10)) 1 0 5 false (some [9]) true =
        some out ∧
      out.ret = false ∧ out.stateList = some [0] ∧ out.calls.countP Call.isProject = 1 := by
  have hd : (failingProjection (1 / 10)).delta_ < (failingProjection (1 / 10)).distance 0 5 := by
    norm_num [failingProjection]
  obtain ⟨out, h, hr, hl, _, _, _, hc⟩ :=
    traverseManifold_failed_projection_no_retry (failingProjection (1 / 10)) 0 0 5 false
      (some [9]) true rfl hd (fun _ => rfl)
  exact ⟨rfl, hd, fun _ => rfl, out, h, hr, by simpa using hl, hc⟩

/-! ## The constrained sampler -/

/-- C10: each of `sampleUniform`, `sampleUniformNear` and `sampleGaussian` leaves in
`state` exactly the state that `project` makes of the wrapped sampler's output for the
same arguments, and passes on the wrapped sampler's generator state; `project` is called
exactly once, on that output, and nothing depends on the flag it returns. -/
theorem ProjectedStateSampler_composition {G : Type} (sp : ProjectedStateSpace S)
    (sampler : StateSampler S G) (g : G) (state other : S) (param : ℚ) :
    ((ProjectedStateSampler.sampleUniform sp sampler g state).state =
        (sp.project (sampler.sampleUniform g state).1).1 ∧
      (ProjectedStateSampler.sampleUniform sp sampler g state).gen =
        (sampler.sampleUniform g state).2 ∧
      (ProjectedStateSampler.sampleUniform sp sampler g state).calls =
        [Call.project (sampler.sampleUniform g state).1]) ∧
    ((ProjectedStateSampler.sampleUniformNear sp sampler g state other param).state =
        (sp.project (sampler.sampleUniformNear g state other param).1).1 ∧
      (ProjectedStateSampler.sampleUniformNear sp sampler g state other param).gen =
        (sampler.sampleUniformNear g state other param).2 ∧
      (ProjectedStateSampler.sampleUniformNear sp sampler g state other param).calls =
        [Call.project (sampler.sampleUniformNear g state other param).1]) ∧
    ((ProjectedStateSampler.sampleGaussian sp sampler g state other param).state =
        (sp.project (sampler.sampleGaussian g state other param).1).1 ∧
      (ProjectedStateSampler.sampleGaussian sp sampler g state other param).gen =
        (sampler.sampleGaussian g state other param).2 ∧
      (ProjectedStateSampler.sampleGaussian sp sampler g state other param).calls =
        [Call.project (sampler.sampleGaussian g state other param).1]) :=
  ⟨⟨rfl, rfl, rfl⟩, ⟨rfl, rfl, rfl⟩, ⟨rfl, rfl, rfl⟩⟩

/-! ## One iteration of the stepping loop -/

/-- An iteration that does not accept leaves through a `break` and changes nothing but
the call log. -/
theorem loopBody_break (sp : ProjectedStateSpace S) (toS : S) (interpolate : Bool)
    (st : LoopState S) (h : stepAccepts sp toS interpolate st.previous st.dist = false) :
    (loopBody sp toS interpolate st).2 = true ∧
    (loopBody sp toS interpolate st).1.previous = st.previous ∧
    (loopBody sp toS interpolate st).1.dist = st.dist ∧
    (loopBody sp toS interpolate st).1.stateList = st.stateList ∧
    (loopBody sp toS interpolate st).1.accepted = st.accepted := by
  unfold loopBody
  simp only []
  split
  · exact ⟨rfl, rfl, rfl, rfl, rfl⟩
  · rename_i h1
    split
    · exact ⟨rfl, rfl, rfl, rfl, rfl⟩
    · rename_i h2
      exfalso
      simp only [stepAccepts, scratchOf] at h
      simp only [Bool.or_eq_true, Bool.not_eq_true', decide_eq_true_eq, not_or,
        Bool.not_eq_false] at h1
      simp [h1.1.1, h1.2, h2] at h
      rcases h1.1.2 with hi | hv
      · simp [hi] at h
      · simp [hv] at h

/-- An iteration that accepts reaches the end of the body: the scratch state becomes
`previous`, its distance to the target becomes `dist`, and it is recorded. -/
theorem loopBody_accept (sp : ProjectedStateSpace S) (toS : S) (interpolate : Bool)
    (st : LoopState S) (h : stepAccepts sp toS interpolate st.previous st.dist = true) :
    (loopBody sp toS interpolate st).2 = false ∧
    (loopBody sp toS interpolate st).1.previous = (scratchOf sp toS st.previous st.dist).1 ∧
    (loopBody sp toS interpolate st).1.dist =
      sp.distance (scratchOf sp toS st.previous st.dist).1 toS ∧
    (loopBody sp toS interpolate st).1.stateList =
      st.stateList.map (fun l => l ++ [(scratchOf sp toS st.previous st.dist).1]) ∧
    (loopBody sp toS interpolate st).1.accepted =
      st.accepted ++ [(scratchOf sp toS st.previous st.dist).1] := by
  simp only [stepAccepts, scratchOf, Bool.and_eq_true, Bool.not_eq_true',
    decide_eq_false_iff_not] at h
  obtain ⟨⟨⟨h1, h2⟩, h3⟩, h4⟩ := h
  unfold loopBody
  simp only [scratchOf]
  rw [if_neg (by simp [h1, h2, h3]), if_neg h4]
  exact ⟨rfl, rfl, rfl, rfl, rfl⟩

/-- Every iteration logs one `interpolate` call, with the current `previous` and the
parameter `delta_ / dist`, then one `project` call, then calls that are neither. -/
theorem loopBody_calls (sp : ProjectedStateSpace S) (toS : S) (interpolate : Bool)
    (st : LoopState S) :
    ∃ rest, (loopBody sp toS interpolate st).1.calls =
        st.calls ++ Call.interpolate st.previous toS (sp.fl (sp.delta_ / st.dist)) ::
          Call.project (sp.interpolate st.previous toS (sp.fl (sp.delta_ / st.dist))) :: rest ∧
      ∀ c ∈ rest, Call.isInterpolate c = false ∧ Call.isProject c = false := by
  cases interpolate <;> unfold loopBody <;> simp only [] <;> split
  · exact ⟨_, by simp only [List.append_assoc, List.cons_append, List.nil_append]; rfl,
      by simp [Call.isInterpolate, Call.isProject]⟩
  · split
    · exact ⟨_, by simp only [List.append_assoc, List.cons_append, List.nil_append]; rfl,
        by simp [Call.isInterpolate, Call.isProject]⟩
    · exact ⟨_, by simp only [List.append_assoc, List.cons_append, List.nil_append]; rfl,
        by simp [Call.isInterpolate, Call.isProject]⟩
  · exact ⟨_, by simp only [List.append_assoc, List.cons_append, List.nil_append]; rfl,
      by simp [Call.isInterpolate, Call.isProject]⟩
  · split
    · exact ⟨_, by simp only [List.append_assoc, List.cons_append, List.nil_append]; rfl,
        by simp [Call.isInterpolate, Call.isProject]⟩
    · exact ⟨_, by simp only [List.append_assoc, List.cons_append, List.nil_append]; rfl,
        by simp [Call.isInterpolate, Call.isProject]⟩

/-- With `dist = distance(previous, to)`, the body accepts exactly when the scratch state
of the step satisfies `AcceptedStep`. -/
theorem stepAccepts_iff (sp : ProjectedStateSpace S) (toS : S) (interpolate : Bool)
    (prev : S) :
    stepAccepts sp toS interpolate prev (sp.distance prev toS) = true ↔
      ∃ s, AcceptedStep sp toS interpolate prev s := by
  constructor
  · intro h
    simp only [stepAccepts, scratchOf, Bool.and_eq_true, Bool.not_eq_true',
      decide_eq_false_iff_not, Bool.or_eq_true, not_lt, ge_iff_le, gt_iff_lt, not_le] at h
    obtain ⟨⟨⟨h1, h2⟩, h3⟩, h4⟩ := h
    exact ⟨_, rfl, h1, h2, h3, h4⟩
  · rintro ⟨s, hs, h1, h2, h3, h4⟩
    subst hs
    simp only [stepAccepts, scratchOf, Bool.and_eq_true, Bool.not_eq_true',
      decide_eq_false_iff_not, Bool.or_eq_true, not_lt, ge_iff_le, gt_iff_lt, not_le]
    exact ⟨⟨⟨h1, h2⟩, h3⟩, h4⟩

/-- With `dist = distance(previous, to)`, the body does not accept exactly when the step
is rejected or makes no progress. -/
theorem stepAccepts_eq_false_iff (sp : ProjectedStateSpace S) (toS : S)
    (interpolate : Bool) (prev : S) :
    stepAccepts sp toS interpolate prev (sp.distance prev toS) = false ↔
      StepRejected sp toS interpolate prev ∨ StepNoProgress sp toS interpolate prev := by
  by_cases hr : StepRejected sp toS interpolate prev
  · simp only [hr, true_or, iff_true]
    rcases hr with h | h | h
    · simp [stepAccepts, h]
    · simp [stepAccepts, h.1, h.2]
    · simp [stepAccepts, h]
  · simp only [hr, false_or, StepNoProgress, not_false_eq_true, true_and]
    simp only [StepRejected, not_or, Bool.not_eq_false, not_and, not_lt, gt_iff_lt] at hr
    obtain ⟨h1, h2, h3⟩ := hr
    have hv : (interpolate || sp.isValid (scratchOf sp toS prev (sp.distance prev toS)).1)
        = true := by
      cases interpolate
      · simpa using h2 rfl
      · rfl
    simp [stepAccepts, h1, hv, not_lt.mpr h3]

/-! ## Entry and exit of the stepping loop -/

theorem loopBody_count (sp : ProjectedStateSpace S) (toS : S) (interpolate : Bool)
    (st : LoopState S) :
    (loopBody sp toS interpolate st).1.calls.countP Call.isProject =
      st.calls.countP Call.isProject + 1 := by
  obtain ⟨rest, hc, hrest⟩ := loopBody_calls sp toS interpolate st
  have h0 : rest.countP Call.isProject = 0 := by
    rw [List.countP_eq_zero]
    intro c hc
    simp [(hrest c hc).2]
  rw [hc, List.countP_append, List.countP_cons, List.countP_cons, h0]
  simp [Call.isProject]

theorem loopBody_calls_ok (sp : ProjectedStateSpace S) (fromS toS : S) (interpolate : Bool)
    (pre : Option (List S)) (st : LoopState S)
    (hinv : LoopInv sp fromS toS interpolate pre st) (hge : sp.delta_ ≤ st.dist)
    (hok : InterpolateCallsOK sp fromS toS st.calls st.accepted)
    (acc : List S) (hacc : ∀ x ∈ st.accepted, x ∈ acc) :
    InterpolateCallsOK sp fromS toS (loopBody sp toS interpolate st).1.calls acc := by
  obtain ⟨rest, hc, hrest⟩ := loopBody_calls sp toS interpolate st
  have hmono : ∀ x ∈ fromS :: st.accepted, x ∈ fromS :: acc := by
    intro x hx
    rcases List.mem_cons.mp hx with rfl | hx
    · exact List.mem_cons_self _ _
    · exact List.mem_cons_of_mem _ (hacc x hx)
  intro a b t hmem
  rw [hc] at hmem
  rcases List.mem_append.mp hmem with h | h
  · obtain ⟨h1, h2, h3, h4⟩ := hok a b t h
    exact ⟨h1, h2, h3, hmono a h4⟩
  · rcases List.mem_cons.mp h with h | h
    · cases h
      refine ⟨rfl, by rw [hinv.dist_eq], by rw [← hinv.dist_eq]; exact hge, ?_⟩
      exact hmono _ (List.mem_of_mem_getLast? hinv.prev_eq)
    · rcases List.mem_cons.mp h with h | h
      · cases h
      · have := (hrest _ h).1
        simp [Call.isInterpolate] at this

theorem traverseLoop_exit (sp : ProjectedStateSpace S) (fromS toS : S) (interpolate : Bool)
    (pre : Option (List S)) :
    ∀ (fuel : Nat) (st r : LoopState S),
      traverseLoop sp toS interpolate fuel st = some r →
      LoopInv sp fromS toS interpolate pre st → EntryInv sp fromS toS st →
      ExitInv sp fromS toS interpolate r := by
  intro fuel
  induction fuel with
  | zero => intro st r h; simp [traverseLoop] at h
  | succ n ih =>
    intro st r h hinv hent
    have hcount := loopBody_count sp toS interpolate st
    rw [traverseLoop] at h
    cases hacc : stepAccepts sp toS interpolate st.previous st.dist with
    | false =>
      obtain ⟨hb, hp, hd, _, ha⟩ := loopBody_break sp toS interpolate st hacc
      simp only [hb, if_true, Option.some.injEq] at h
      subst h
      refine ⟨?_, Or.inl ⟨?_, ?_, ?_⟩⟩
      · exact loopBody_calls_ok sp fromS toS interpolate pre st hinv hent.ge hent.calls_ok _
          (by rw [ha]; exact fun x hx => hx)
      · rw [hcount, ha, hent.count]
      · rw [hd]; exact hent.ge
      · rw [hp, hd]; exact hacc
    | true =>
      obtain ⟨hb, hp, hd, _, ha⟩ := loopBody_accept sp toS interpolate st hacc
      have hok := loopBody_calls_ok sp fromS toS interpolate pre st hinv hent.ge
        hent.calls_ok (loopBody sp toS interpolate st).1.accepted
        (by rw [ha]; exact fun x hx => List.mem_append_left _ hx)
      have hcnt : (loopBody sp toS interpolate st).1.calls.countP Call.isProject =
          (loopBody sp toS interpolate st).1.accepted.length := by
        rw [hcount, ha, hent.count]; simp
      simp only [hb, Bool.false_eq_true, if_false] at h
      by_cases hge : (loopBody sp toS interpolate st).1.dist ≥ sp.delta_
      · rw [if_pos hge] at h
        exact ih _ _ h (loopBody_inv sp fromS toS interpolate pre st hinv) ⟨hge, hcnt, hok⟩
      · rw [if_neg hge] at h
        cases h
        exact ⟨hok, Or.inr ⟨hcnt, not_le.mp hge, by rw [ha]; simp⟩⟩

/-- The first call the loop logs is the `interpolate` call of its first iteration. -/
theorem traverseLoop_calls_prefix (sp : ProjectedStateSpace S) (toS : S)
    (interpolate : Bool) :
    ∀ (fuel : Nat) (st r : LoopState S),
      traverseLoop sp toS interpolate fuel st = some r →
      ∃ rest, r.calls =
        st.calls ++ Call.interpolate st.previous toS (sp.fl (sp.delta_ / st.dist)) :: rest := by
  intro fuel
  induction fuel with
  | zero => intro st r h; simp [traverseLoop] at h
  | succ n ih =>
    intro st r h
    obtain ⟨rest, hc, _⟩ := loopBody_calls sp toS interpolate st
    rw [traverseLoop] at h
    by_cases h1 : (loopBody sp toS interpolate st).2 = true
    · simp only [h1, if_true, Option.some.injEq] at h
      subst h
      exact ⟨_, hc⟩
    · by_cases h2 : (loopBody sp toS interpolate st).1.dist ≥ sp.delta_
      · simp only [h1, h2, if_true, if_false, Bool.false_eq_true] at h
        obtain ⟨rest2, hc2⟩ := ih _ _ h
        refine ⟨Call.project (sp.interpolate st.previous toS (sp.fl (sp.delta_ / st.dist))) :: rest ++
          Call.interpolate (loopBody sp toS interpolate st).1.previous toS
            (sp.fl (sp.delta_ / (loopBody sp toS interpolate st).1.dist)) :: rest2, ?_⟩
        rw [hc2, hc]
        simp
      · simp only [h1, h2, if_false, Bool.false_eq_true, Option.some.injEq] at h
        subst h
        exact ⟨_, hc⟩

/-- How a call of `traverseManifold` on a feasible start state can end: through the
trivial shortcut, through a `break` of the loop, or through the loop condition. -/
theorem traverseManifold_exit (sp : ProjectedStateSpace S) (fuel : Nat) (fromS toS : S)
    (interpolate : Bool) (stateList : Option (List S)) (endpoints : Bool)
    (out : Outcome S) (hsat : sp.isSatisfied fromS = true)
    (h : traverseManifold sp fuel fromS toS interpolate stateList endpoints = some out) :
    InterpolateCallsOK sp fromS toS out.calls out.accepted ∧
    ((sp.distance fromS toS ≤ sp.delta_ ∧ out.accepted = [] ∧ out.iterations = 0 ∧
        out.calls = [Call.isSatisfied fromS, Call.distance fromS toS]) ∨
      (sp.delta_ < sp.distance fromS toS ∧
        (∃ rest, out.calls = [Call.isSatisfied fromS, Call.distance fromS toS] ++
          Call.interpolate fromS toS (sp.fl (sp.delta_ / sp.distance fromS toS)) :: rest) ∧
        ((out.iterations = out.accepted.length + 1 ∧
            sp.delta_ ≤ sp.distance out.previous toS ∧
            stepAccepts sp toS interpolate out.previous
              (sp.distance out.previous toS) = false) ∨
          (out.iterations = out.accepted.length ∧
            sp.distance out.previous toS < sp.delta_ ∧ out.accepted ≠ [])))) := by
  unfold traverseManifold at h
  simp only [hsat, Bool.not_true, Bool.false_eq_true, if_false] at h
  by_cases h1 : sp.distance fromS toS ≤ sp.delta_
  · simp only [h1, if_true, Option.some.injEq] at h
    subst h
    refine ⟨?_, Or.inl ⟨h1, rfl, ?_, rfl⟩⟩
    · intro a b t hmem
      simp at hmem
    · simp [Outcome.iterations, Call.isProject]
  · simp only [h1, if_false] at h
    rw [Option.map_eq_some'] at h
    obtain ⟨st, hst, rfl⟩ := h
    have hinv0 : LoopInv sp fromS toS interpolate
        (stateList.map (fun _ => if endpoints then [fromS] else []))
        { previous := fromS, dist := sp.distance fromS toS,
          stateList := stateList.map (fun _ => if endpoints then [fromS] else []),
          accepted := [], calls := [Call.isSatisfied fromS, Call.distance fromS toS] } :=
      ⟨rfl, rfl, List.chain'_singleton _, by cases stateList <;> simp⟩
    have hent0 : EntryInv sp fromS toS
        { previous := fromS, dist := sp.distance fromS toS,
          stateList := stateList.map (fun _ => if endpoints then [fromS] else []),
          accepted := [], calls := [Call.isSatisfied fromS, Call.distance fromS toS] } :=
      ⟨le_of_lt (not_le.mp h1), by simp [Call.isProject], by
        intro a b t hmem
        simp at hmem⟩
    have hinv := traverseLoop_inv sp fromS toS interpolate _ fuel _ st hst hinv0
    obtain ⟨hok, hstop⟩ := traverseLoop_exit sp fromS toS interpolate _ fuel _ st hst
      hinv0 hent0
    obtain ⟨rest, hrest⟩ := traverseLoop_calls_prefix sp toS interpolate fuel _ st hst
    refine ⟨hok, Or.inr ⟨not_le.mp h1, ⟨rest, hrest⟩, ?_⟩⟩
    rw [hinv.dist_eq] at hstop
    exact hstop

/-- More fuel than needed does not change the outcome. -/
theorem traverseManifold_fuel_le (sp : ProjectedStateSpace S) (fromS toS : S)
    (interpolate : Bool) (stateList : Option (List S)) (endpoints : Bool)
    (out : Outcome S) (n : Nat)
    (h : traverseManifold sp n fromS toS interpolate stateList endpoints = some out) :
    ∀ m, n ≤ m →
      traverseManifold sp m fromS toS interpolate stateList endpoints = some out := by
  intro m hm
  induction m, hm using Nat.le_induction with
  | base => exact h
  | succ k _ ih =>
    exact traverseManifold_fuel_succ sp k fromS toS interpolate stateList endpoints out ih

/-! ## Number of iterations -/

/-- If every accepted step that starts at least `delta_` away from the target gains at
least `delta_`, a loop entered with `delta_ <= dist < (n + 1) * delta_` returns within
`n` iterations. -/
theorem traverseLoop_bounded (sp : ProjectedStateSpace S) (toS : S) (interpolate : Bool)
    (hstep : ∀ prev s, sp.delta_ ≤ sp.distance prev toS →
      AcceptedStep sp toS interpolate prev s →
      sp.distance s toS ≤ sp.distance prev toS - sp.delta_) :
    ∀ (n : Nat) (st : LoopState S), st.dist = sp.distance st.previous toS →
      sp.delta_ ≤ st.dist → st.dist < ((n : ℚ) + 1) * sp.delta_ →
      ∃ r, traverseLoop sp toS interpolate n st = some r ∧
        r.calls.countP Call.isProject ≤ st.calls.countP Call.isProject + n ∧
        r.accepted.length ≤ st.accepted.length + n := by
  intro n
  induction n with
  | zero =>
    intro st _ hge hlt
    simp only [Nat.cast_zero, zero_add, one_mul] at hlt
    exact absurd hge (not_le.mpr hlt)
  | succ k ih =>
    intro st hd hge hlt
    have hcount := loopBody_count sp toS interpolate st
    rw [traverseLoop]
    cases hacc : stepAccepts sp toS interpolate st.previous st.dist with
    | false =>
      obtain ⟨hb, _, _, _, ha⟩ := loopBody_break sp toS interpolate st hacc
      refine ⟨(loopBody sp toS interpolate st).1, by simp [hb], ?_, ?_⟩
      · rw [hcount]; omega
      · rw [ha]; omega
    | true =>
      obtain ⟨hb, hp, hd', _, ha⟩ := loopBody_accept sp toS interpolate st hacc
      have hacc' := hacc
      rw [hd] at hacc'
      obtain ⟨s, hs⟩ := (stepAccepts_iff sp toS interpolate st.previous).mp hacc'
      have hgain := hstep st.previous s (by rw [← hd]; exact hge) hs
      have hseq : s = (scratchOf sp toS st.previous st.dist).1 := by
        rw [hs.1, hd]; rfl
      rw [hseq, ← hd', ← hd] at hgain
      have hlt' : (loopBody sp toS interpolate st).1.dist < ((k : ℚ) + 1) * sp.delta_ := by
        push_cast at hlt
        linarith
      simp only [hb, Bool.false_eq_true, if_false]
      by_cases hge' : (loopBody sp toS interpolate st).1.dist ≥ sp.delta_
      · rw [if_pos hge']
        obtain ⟨r, hr, hc1, hc2⟩ := ih (loopBody sp toS interpolate st).1
          (by rw [hd', hp]) hge' hlt'
        refine ⟨r, hr, ?_, ?_⟩
        · rw [hcount] at hc1; omega
        · rw [ha] at hc2; simp only [List.length_append, List.length_singleton] at hc2; omega
      · rw [if_neg hge']
        refine ⟨_, rfl, ?_, ?_⟩
        · rw [hcount]; omega
        · rw [ha]; simp only [List.length_append, List.length_singleton]; omega

/-- C11 (as stated, refuted): with a projection that pulls every scratch state back by
1/2, going from 0 to 2 with `delta_ = 1` runs 3 iterations and records 3 intermediate
states, more than `distance(from, to) / delta_ = 2`. -/
theorem traverseManifold_exceeds_iteration_bound :
    (laggingProjection 1).isSatisfied 0 = true ∧ 0 < (laggingProjection 1).delta_ ∧
    (traverseManifold (laggingProjection 1) 3 0 2 false (some []) true).map
      (fun out => (out.ret, out.accepted, out.iterations)) = some (true, [1 / 2, 1, 3 / 2], 3) ∧
    ¬ ((3 : ℚ) ≤ (laggingProjection 1).distance 0 2 / (laggingProjection 1).delta_) := by
  refine ⟨rfl, by norm_num [laggingProjection], ?_, by norm_num [laggingProjection]⟩
  norm_num [traverseManifold, traverseLoop, loopBody, laggingProjection, Outcome.iterations,
    Call.isProject, List.countP_cons, abs_div]

/-- C11 (amended): for a feasible `from` and `delta_ > 0`, provided every accepted step
that starts at least `delta_` away from `to` brings the state at least `delta_` closer
(as an unprojected step of length `delta_` does), `traverseManifold` returns with any
fuel of at least `⌊distance(from, to) / delta_⌋` iterations, and the loop runs at most
that many iterations and records at most that many intermediate states. -/
theorem traverseManifold_iteration_bound (sp : ProjectedStateSpace S) (fromS toS : S)
    (interpolate : Bool) (stateList : Option (List S)) (endpoints : Bool)
    (hpos : 0 < sp.delta_) (hsat : sp.isSatisfied fromS = true)
    (hstep : ∀ prev s, sp.delta_ ≤ sp.distance prev toS →
      AcceptedStep sp toS interpolate prev s →
      sp.distance s toS ≤ sp.distance prev toS - sp.delta_)
    (fuel : Nat) (hfuel : ⌊sp.distance fromS toS / sp.delta_⌋₊ ≤ fuel) :
    ∃ out, traverseManifold sp fuel fromS toS interpolate stateList endpoints = some out ∧
      out.iterations ≤ ⌊sp.distance fromS toS / sp.delta_⌋₊ ∧
      out.accepted.length ≤ ⌊sp.distance fromS toS / sp.delta_⌋₊ ∧
      (0 ≤ sp.distance fromS toS →
        (out.iterations : ℚ) ≤ sp.distance fromS toS / sp.delta_ ∧
        (out.accepted.length : ℚ) ≤ sp.distance fromS toS / sp.delta_) := by
  have key : ∃ out, traverseManifold sp ⌊sp.distance fromS toS / sp.delta_⌋₊ fromS toS
      interpolate stateList endpoints = some out ∧
      out.iterations ≤ ⌊sp.distance fromS toS / sp.delta_⌋₊ ∧
      out.accepted.length ≤ ⌊sp.distance fromS toS / sp.delta_⌋₊ := by
    unfold traverseManifold
    simp only [hsat, Bool.not_true, Bool.false_eq_true, if_false]
    by_cases h1 : sp.distance fromS toS ≤ sp.delta_
    · simp only [h1, if_true]
      exact ⟨_, rfl, by simp [Outcome.iterations, Call.isProject], by simp⟩
    · simp only [h1, if_false]
      have hlt : sp.distance fromS toS <
          ((⌊sp.distance fromS toS / sp.delta_⌋₊ : ℚ) + 1) * sp.delta_ :=
        (div_lt_iff₀ hpos).mp (Nat.lt_floor_add_one _)
      obtain ⟨r, hr, hc1, hc2⟩ := traverseLoop_bounded sp toS interpolate hstep
        ⌊sp.distance fromS toS / sp.delta_⌋₊
        { previous := fromS, dist := sp.distance fromS toS,
          stateList := stateList.map (fun _ => if endpoints then [fromS] else []),
          accepted := [], calls := [Call.isSatisfied fromS, Call.distance fromS toS] }
        rfl (le_of_lt (not_le.mp h1)) hlt
      refine ⟨_, by rw [hr]; rfl, ?_, ?_⟩
      · simpa [Outcome.iterations, Call.isProject] using hc1
      · simpa using hc2
  obtain ⟨out, hout, hi, ha⟩ := key
  refine ⟨out, traverseManifold_fuel_le sp fromS toS interpolate stateList endpoints out _
    hout fuel hfuel, hi, ha, ?_⟩
  intro h0
  have hfl : (⌊sp.distance fromS toS / sp.delta_⌋₊ : ℚ) ≤ sp.distance fromS toS / sp.delta_ :=
    Nat.floor_le (div_nonneg h0 (le_of_lt hpos))
  exact ⟨le_trans (by exact_mod_cast hi) hfl, le_trans (by exact_mod_cast ha) hfl⟩

/-- On the unconstrained line with step 1 and target 2, an accepted step that starts at
least 1 away from the target gains exactly 1. -/
theorem freeLine_step_gain (prev s : ℚ) (hge : (freeLine 1).delta_ ≤ (freeLine 1).distance prev 2)
    (hs : AcceptedStep (freeLine 1) 2 false prev s) :
    (freeLine 1).distance s 2 ≤ (freeLine 1).distance prev 2 - (freeLine 1).delta_ := by
  obtain ⟨hs1, _, _, _, _⟩ := hs
  simp only [freeLine] at hge hs1 ⊢
  rcases le_or_lt prev 2 with hle | hgt
  · have habs : |prev - 2| = 2 - prev := by rw [abs_of_nonpos (by linarith)]; ring
    rw [habs] at hge hs1 ⊢
    have hne : (2 : ℚ) - prev ≠ 0 := by linarith
    have hs2 : s = prev + 1 := by rw [hs1]; field_simp
    rw [hs2, abs_of_nonpos (by linarith)]
    linarith
  · have habs : |prev - 2| = prev - 2 := abs_of_pos (by linarith)
    rw [habs] at hge hs1 ⊢
    have hne : prev - 2 ≠ 0 := by linarith
    have hs2 : s = prev - 1 := by
      rw [hs1]
      field_simp
      ring
    rw [hs2, abs_of_nonneg (by linarith)]
    linarith

/-- Witness for C11 (amended): the unconstrained line with step 1, from 0 to 2, with a
fuel of 2 iterations. -/
theorem traverseManifold_iteration_bound_witness :
    0 < (freeLine 1).delta_ ∧ (freeLine 1).isSatisfied 0 = true ∧
    ⌊(freeLine 1).distance 0 2 / (freeLine 1).delta_⌋₊ ≤ 2 ∧
    ∃ out, traverseManifold (freeLine 1) 2 0 2 false (some [9]) true = some out ∧
      out.iterations ≤ ⌊(freeLine 1).distance 0 2 / (freeLine 1).delta_⌋₊ ∧
      out.accepted.length ≤ ⌊(freeLine 1).distance 0 2 / (freeLine 1).delta_⌋₊ ∧
      (0 ≤ (freeLine 1).distance 0 2 →
        (out.iterations : ℚ) ≤ (freeLine 1).distance 0 2 / (freeLine 1).delta_ ∧
        (out.accepted.length : ℚ) ≤ (freeLine 1).distance 0 2 / (freeLine 1).delta_) := by
  have hpos : 0 < (freeLine 1).delta_ := by norm_num [freeLine]
  have hfuel : ⌊(freeLine 1).distance 0 2 / (freeLine 1).delta_⌋₊ ≤ 2 := by
    norm_num [freeLine]
  exact ⟨hpos, rfl, hfuel,
    traverseManifold_iteration_bound (freeLine 1) 0 2 false (some [9]) true hpos rfl
      freeLine_step_gain 2 hfuel⟩

/-! ## Independence of the validity checker, of the list and of the endpoints flag -/

theorem stepAccepts_withValidity (sp : ProjectedStateSpace S) (v : S → Bool) (toS : S)
    (i1 i2 : Bool) (hval : ∀ s, (i1 || sp.isValid s) = (i2 || v s)) (prev : S) (d : ℚ) :
    stepAccepts sp toS i1 prev d = stepAccepts (withValidity sp v) toS i2 prev d := by
  simp only [stepAccepts, scratchOf, withValidity, hval]

/-- Two runs of the loop whose validity checks agree (each either skipped or answered
alike), started from states with the same `previous`, `dist` and accepted states, end
alike, or both run out of fuel. -/
theorem traverseLoop_sim (sp : ProjectedStateSpace S) (v : S → Bool) (toS : S)
    (i1 i2 : Bool) (hval : ∀ s, (i1 || sp.isValid s) = (i2 || v s)) :
    ∀ (n : Nat) (st1 st2 : LoopState S), st1.previous = st2.previous →
      st1.dist = st2.dist → st1.accepted = st2.accepted →
      (traverseLoop sp toS i1 n st1).map (fun r => (r.previous, r.dist, r.accepted)) =
        (traverseLoop (withValidity sp v) toS i2 n st2).map
          (fun r => (r.previous, r.dist, r.accepted)) := by
  intro n
  induction n with
  | zero => intro st1 st2 _ _ _; simp [traverseLoop]
  | succ k ih =>
    intro st1 st2 hp hd ha
    have hacc2 := stepAccepts_withValidity sp v toS i1 i2 hval st1.previous st1.dist
    rw [hp, hd] at hacc2
    rw [traverseLoop, traverseLoop]
    cases hacc : stepAccepts sp toS i1 st1.previous st1.dist with
    | false =>
      obtain ⟨hb1, hp1, hd1, _, ha1⟩ := loopBody_break sp toS i1 st1 hacc
      rw [hp, hd] at hacc
      obtain ⟨hb2, hp2, hd2, _, ha2⟩ := loopBody_break (withValidity sp v) toS i2 st2
        (by rw [← hacc2]; exact hacc)
      simp only [hb1, hb2, if_true, Option.map_some', hp1, hp2, hd1, hd2, ha1, ha2, hp, hd, ha]
    | true =>
      obtain ⟨hb1, hp1, hd1, _, ha1⟩ := loopBody_accept sp toS i1 st1 hacc
      rw [hp, hd] at hacc
      obtain ⟨hb2, hp2, hd2, _, ha2⟩ := loopBody_accept (withValidity sp v) toS i2 st2
        (by rw [← hacc2]; exact hacc)
      have hpe : (loopBody sp toS i1 st1).1.previous =
          (loopBody (withValidity sp v) toS i2 st2).1.previous := by
        rw [hp1, hp2, hp, hd]; rfl
      have hde : (loopBody sp toS i1 st1).1.dist =
          (loopBody (withValidity sp v) toS i2 st2).1.dist := by
        rw [hd1, hd2, hp, hd]; rfl
      have hae : (loopBody sp toS i1 st1).1.accepted =
          (loopBody (withValidity sp v) toS i2 st2).1.accepted := by
        rw [ha1, ha2, hp, hd, ha]; rfl
      have hdelta : (withValidity sp v).delta_ = sp.delta_ := rfl
      simp only [hb1, hb2, Bool.false_eq_true, if_false, hdelta]
      by_cases hge : (loopBody sp toS i1 st1).1.dist ≥ sp.delta_
      · rw [if_pos hge, if_pos (by rw [← hde]; exact hge)]
        exact ih _ _ hpe hde hae
      · rw [if_neg hge, if_neg (by rw [← hde]; exact hge)]
        simp only [Option.map_some', hpe, hde, hae]

/-- Two calls of `traverseManifold` whose validity checks agree return the same boolean
and accept the same states, whatever lists and endpoints flags they are given. -/
theorem traverseManifold_sim (sp : ProjectedStateSpace S) (v : S → Bool)
    (i1 i2 : Bool) (hval : ∀ s, (i1 || sp.isValid s) = (i2 || v s))
    (fuel : Nat) (fromS toS : S) (l1 l2 : Option (List S)) (e1 e2 : Bool) :
    (traverseManifold sp fuel fromS toS i1 l1 e1).map Outcome.traversal =
      (traverseManifold (withValidity sp v) fuel fromS toS i2 l2 e2).map
        Outcome.traversal := by
  have hs : (withValidity sp v).isSatisfied fromS = sp.isSatisfied fromS := rfl
  have hdist : (withValidity sp v).distance fromS toS = sp.distance fromS toS := rfl
  have hdelta : (withValidity sp v).delta_ = sp.delta_ := rfl
  unfold traverseManifold
  simp only [hs, hdist, hdelta]
  by_cases h0 : (!sp.isSatisfied fromS) = true
  · simp only [h0, if_true, Option.map_some', Outcome.traversal]
  · simp only [h0, if_false, Bool.false_eq_true]
    by_cases h1 : sp.distance fromS toS ≤ sp.delta_
    · simp only [h1, if_true, Option.map_some', Outcome.traversal]
    · simp only [h1, if_false, Option.map_map]
      have hsim := traverseLoop_sim sp v toS i1 i2 hval fuel
        { previous := fromS, dist := sp.distance fromS toS,
          stateList := l1.map (fun _ => if e1 then [fromS] else []),
          accepted := [], calls := [Call.isSatisfied fromS, Call.distance fromS toS] }
        { previous := fromS, dist := sp.distance fromS toS,
          stateList := l2.map (fun _ => if e2 then [fromS] else []),
          accepted := [], calls := [Call.isSatisfied fromS, Call.distance fromS toS] }
        rfl rfl rfl
      have hmap := congrArg
        (Option.map (fun x : S × ℚ × List S => (decide (x.2.1 ≤ sp.delta_), x.1, x.2.2))) hsim
      simp only [Option.map_map] at hmap
      exact hmap

/-- The list a call leaves behind is determined by the feasibility of `from`, the
endpoints flag and the accepted states. -/
theorem traverseManifold_stateList (sp : ProjectedStateSpace S) (fuel : Nat) (fromS toS : S)
    (interpolate : Bool) (stateList : Option (List S)) (endpoints : Bool) (out : Outcome S)
    (h : traverseManifold sp fuel fromS toS interpolate stateList endpoints = some out) :
    out.stateList = if sp.isSatisfied fromS = true then
        stateList.map (fun _ => (if endpoints then [fromS] else []) ++ out.accepted)
      else stateList := by
  by_cases hsat : sp.isSatisfied fromS = true
  · rw [if_pos hsat]
    exact (traverseManifold_inv sp fuel fromS toS interpolate stateList endpoints out
      hsat h).list_eq
  · rw [if_neg hsat]
    have hf : sp.isSatisfied fromS = false := by simpa using hsat
    simp only [traverseManifold, hf, Bool.not_false, if_true, Option.some.injEq] at h
    rw [← h]

/-- Two calls whose validity checks agree, given the same list and endpoints flag, leave
the same boolean, list, last accepted state and accepted states. -/
theorem traverseManifold_sim_observable (sp : ProjectedStateSpace S) (v : S → Bool)
    (i1 i2 : Bool) (hval : ∀ s, (i1 || sp.isValid s) = (i2 || v s))
    (fuel : Nat) (fromS toS : S) (l : Option (List S)) (e : Bool) :
    (traverseManifold sp fuel fromS toS i1 l e).map Outcome.observable =
      (traverseManifold (withValidity sp v) fuel fromS toS i2 l e).map
        Outcome.observable := by
  have hT := traverseManifold_sim sp v i1 i2 hval fuel fromS toS l l e e
  cases h1 : traverseManifold sp fuel fromS toS i1 l e with
  | none =>
    rw [h1] at hT
    cases h2 : traverseManifold (withValidity sp v) fuel fromS toS i2 l e with
    | none => rfl
    | some o2 => rw [h2] at hT; simp at hT
  | some o1 =>
    rw [h1] at hT
    cases h2 : traverseManifold (withValidity sp v) fuel fromS toS i2 l e with
    | none => rw [h2] at hT; simp at hT
    | some o2 =>
      rw [h2] at hT
      simp only [Option.map_some', Option.some.injEq, Outcome.traversal, Prod.mk.injEq] at hT
      obtain ⟨hr, hp, ha⟩ := hT
      have hl1 := traverseManifold_stateList sp fuel fromS toS i1 l e o1 h1
      have hl2 := traverseManifold_stateList (withValidity sp v) fuel fromS toS i2 l e o2 h2
      have hs : (withValidity sp v).isSatisfied fromS = sp.isSatisfied fromS := rfl
      rw [hs, ← ha] at hl2
      simp only [Option.map_some', Outcome.observable, hr, hp, ha, hl1, hl2]

/-- C12: with `interpolate = true`, `traverseManifold` leaves the same boolean and the
same path (and accepts the same states) whatever validity checker is installed, and
that result is the one of `traverseManifold` with `interpolate = false` run against a
validity checker that accepts every state; the two calls also need the same fuel. -/
theorem traverseManifold_interpolate_skips_validity (sp : ProjectedStateSpace S)
    (v : S → Bool) (fuel : Nat) (fromS toS : S) (stateList : Option (List S))
    (endpoints : Bool) :
    (traverseManifold sp fuel fromS toS true stateList endpoints).map Outcome.observable =
      (traverseManifold (withValidity sp v) fuel fromS toS true stateList endpoints).map
        Outcome.observable ∧
    (traverseManifold sp fuel fromS toS true stateList endpoints).map Outcome.observable =
      (traverseManifold (withValidity sp (fun _ => true)) fuel fromS toS false stateList
        endpoints).map Outcome.observable :=
  ⟨traverseManifold_sim_observable sp v true true (fun _ => rfl) fuel fromS toS stateList
      endpoints,
    traverseManifold_sim_observable sp (fun _ => true) true false (fun _ => by simp) fuel
      fromS toS stateList endpoints⟩

/-! ## Structural misuse -/

/-- C13: `checkSpace(si)` throws if and only if the state space of `si` is not a
`ProjectedStateSpace` (a null state space included), and returns normally if and only
if it is one; it returns nothing and has no state to change. -/
theorem checkSpace_throws_iff (si : SpaceInformation) :
    ((∃ msg, checkSpace si = Except.error msg) ↔
      si.stateSpace ≠ some StateSpaceKind.projectedStateSpace) ∧
    (checkSpace si = Except.ok () ↔
      si.stateSpace = some StateSpaceKind.projectedStateSpace) := by
  rcases si with ⟨_ | _ | _⟩ <;> simp [checkSpace]

/-! ## Acceptance of a step -/

/-- A step that does not satisfy `AcceptedStep` ends the loop at once, whatever fuel is
left, and leaves `previous`, `dist`, the list and the accepted states as they were. -/
theorem traverseLoop_stops_at_failed_step (sp : ProjectedStateSpace S) (toS : S)
    (interpolate : Bool) (n : Nat) (st : LoopState S)
    (hd : st.dist = sp.distance st.previous toS)
    (hfail : ¬ ∃ s, AcceptedStep sp toS interpolate st.previous s) :
    ∃ r, traverseLoop sp toS interpolate (n + 1) st = some r ∧
      r.previous = st.previous ∧ r.dist = st.dist ∧ r.stateList = st.stateList ∧
      r.accepted = st.accepted := by
  have hacc : stepAccepts sp toS interpolate st.previous st.dist = false := by
    rw [hd, ← Bool.not_eq_true, stepAccepts_iff]
    exact hfail
  obtain ⟨hb, hrest⟩ := loopBody_break sp toS interpolate st hacc
  exact ⟨(loopBody sp toS interpolate st).1, by rw [traverseLoop]; simp [hb], hrest⟩

/-- C14: on a feasible start state, whenever `traverseManifold` returns, every accepted
state is the scratch state of the step from its predecessor, and for that step
`project` returned true, the validity checker returned true unless `interpolate` is
set, the distance to the predecessor is at most `2 * delta_` and the distance to `to`
is strictly smaller than the predecessor's. If one of these fails for the step from a
state of the sequence `from, accepted_1, …`, no state follows it in the sequence; and
the loop ends at such a step at once, leaving the list and the accepted states as they
were. -/
theorem traverseManifold_acceptance_requires_all_checks (sp : ProjectedStateSpace S)
    (fuel : Nat) (fromS toS : S) (interpolate : Bool) (stateList : Option (List S))
    (endpoints : Bool) (out : Outcome S) (hsat : sp.isSatisfied fromS = true)
    (h : traverseManifold sp fuel fromS toS interpolate stateList endpoints = some out) :
    List.Chain' (fun prev s =>
        s = (sp.project (sp.interpolate prev toS (sp.fl (sp.delta_ / sp.distance prev toS)))).1 ∧
        (sp.project (sp.interpolate prev toS (sp.fl (sp.delta_ / sp.distance prev toS)))).2 = true ∧
        (interpolate = true ∨ sp.isValid s = true) ∧
        sp.distance prev s ≤ 2 * sp.delta_ ∧
        sp.distance s toS < sp.distance prev toS) (fromS :: out.accepted) ∧
    (∀ l1 p l2, fromS :: out.accepted = l1 ++ p :: l2 →
      (¬ ∃ s, AcceptedStep sp toS interpolate p s) → l2 = []) ∧
    (∀ (n : Nat) (st : LoopState S), st.dist = sp.distance st.previous toS →
      (¬ ∃ s, AcceptedStep sp toS interpolate st.previous s) →
      ∃ r, traverseLoop sp toS interpolate (n + 1) st = some r ∧
        r.previous = st.previous ∧ r.dist = st.dist ∧ r.stateList = st.stateList ∧
        r.accepted = st.accepted) := by
  obtain ⟨_, _, hc, _⟩ := traverseManifold_inv sp fuel fromS toS interpolate stateList
    endpoints out hsat h
  refine ⟨hc, ?_, fun n st hd hfail =>
    traverseLoop_stops_at_failed_step sp toS interpolate n st hd hfail⟩
  intro l1 p l2 hsplit hfail
  cases l2 with
  | nil => rfl
  | cons q t =>
    exfalso
    rw [hsplit, List.chain'_split] at hc
    exact hfail ⟨q, (List.chain'_cons.mp hc.2).1⟩

/-- Witness for C14: the run from 0 to 2 on the unconstrained line. -/
theorem traverseManifold_acceptance_requires_all_checks_witness :
    (freeLine 1).isSatisfied 0 = true ∧
    traverseManifold (freeLine 1) 2 0 2 false (some [9]) true = some freeLineOutcome ∧
    List.Chain' (AcceptedStep (freeLine 1) 2 false) (0 :: freeLineOutcome.accepted) ∧
    (∀ l1 p l2, (0 : ℚ) :: freeLineOutcome.accepted = l1 ++ p :: l2 →
      (¬ ∃ s, AcceptedStep (freeLine 1) 2 false p s) → l2 = []) :=
  ⟨rfl, freeLine_run,
    (traverseManifold_acceptance_requires_all_checks (freeLine 1) 2 0 2 false (some [9]) true
      freeLineOutcome rfl freeLine_run).1,
    (traverseManifold_acceptance_requires_all_checks (freeLine 1) 2 0 2 false (some [9]) true
      freeLineOutcome rfl freeLine_run).2.1⟩

/-! ## The interpolation parameter -/

theorem underflowLine_run :
    traverseManifold underflowLine 1 0 (2 ^ 600) false (some [9]) true =
      some underflowOutcome := by
  norm_num [traverseManifold, traverseLoop, loopBody, underflowLine, underflowOutcome,
    abs_div]

/-- The rounding of `underflowLine` is monotone. -/
theorem underflowLine_fl_mono (x y : ℚ) (hxy : x ≤ y) :
    underflowLine.fl x ≤ underflowLine.fl y := by
  have hc : (0 : ℚ) < (1 / 2) ^ 1075 := by positivity
  simp only [underflowLine]
  by_cases hx : |x| ≤ (1 / 2) ^ 1075 <;> by_cases hy : |y| ≤ (1 / 2) ^ 1075
  · rw [if_pos hx, if_pos hy]
  · rw [if_pos hx, if_neg hy]
    rw [abs_le] at hx
    by_contra hneg
    exact hy (abs_le.mpr ⟨by linarith, by linarith⟩)
  · rw [if_neg hx, if_pos hy]
    rw [abs_le] at hy
    by_contra hneg
    exact hx (abs_le.mpr ⟨by linarith, by linarith⟩)
  · rw [if_neg hx, if_neg hy]
    exact hxy

/-- C15 (as stated, refuted): with `delta_ = 2^-600 > 0` and `distance(from, to) = 2^600`
the quotient `delta_ / dist = 2^-1200` underflows, and the call
`interpolate(from, to, t, scratch)` of the first step is made with `t = 0`, which is not
in `(0, 1]`. -/
theorem traverseManifold_parameter_underflows_to_zero :
    0 < underflowLine.delta_ ∧ underflowLine.isSatisfied 0 = true ∧
    ∃ out t, traverseManifold underflowLine 1 0 (2 ^ 600) false (some [9]) true = some out ∧
      Call.interpolate 0 (2 ^ 600) t ∈ out.calls ∧ ¬ (0 < t) := by
  refine ⟨by norm_num [underflowLine], rfl, underflowOutcome, 0, underflowLine_run, ?_, ?_⟩
  · simp [underflowOutcome]
  · simp

/-- C15 (amended): for `delta_ > 0`, a feasible start state and a rounding that is
monotone and keeps 0 and 1 (as rounding to a `double` does), whenever `traverseManifold`
returns, every `interpolate` call it made is `interpolate(a, to, t)` with `a` the start
state or an accepted state, `dist = distance(a, to) >= delta_` and `t` the rounded
quotient `delta_ / dist`: `dist` is not zero, the exact quotient lies in `(0, 1]` and
`t` lies in `[0, 1]`. The first such call starts at `from`; its exact quotient is
strictly below 1, and so is its parameter as soon as a value below 1 that the rounding
keeps lies between them. -/
theorem traverseManifold_interpolation_parameter (sp : ProjectedStateSpace S)
    (fuel : Nat) (fromS toS : S) (interpolate : Bool) (stateList : Option (List S))
    (endpoints : Bool) (out : Outcome S) (hpos : 0 < sp.delta_)
    (hsat : sp.isSatisfied fromS = true)
    (hmono : ∀ x y, x ≤ y → sp.fl x ≤ sp.fl y) (hfl0 : sp.fl 0 = 0) (hfl1 : sp.fl 1 = 1)
    (h : traverseManifold sp fuel fromS toS interpolate stateList endpoints = some out) :
    (∀ a b t, Call.interpolate a b t ∈ out.calls →
      a ∈ fromS :: out.accepted ∧ b = toS ∧ t = sp.fl (sp.delta_ / sp.distance a toS) ∧
      sp.delta_ ≤ sp.distance a toS ∧ sp.distance a toS ≠ 0 ∧
      0 < sp.delta_ / sp.distance a toS ∧ sp.delta_ / sp.distance a toS ≤ 1 ∧
      0 ≤ t ∧ t ≤ 1) ∧
    (∀ c, out.calls.find? Call.isInterpolate = some c →
      c = Call.interpolate fromS toS (sp.fl (sp.delta_ / sp.distance fromS toS)) ∧
      sp.delta_ / sp.distance fromS toS < 1 ∧
      ∀ p, p < 1 → sp.fl p = p → sp.delta_ / sp.distance fromS toS ≤ p →
        sp.fl (sp.delta_ / sp.distance fromS toS) < 1) := by
  obtain ⟨hok, hexit⟩ := traverseManifold_exit sp fuel fromS toS interpolate stateList
    endpoints out hsat h
  constructor
  · intro a b t hmem
    obtain ⟨hb, ht, hge, ha⟩ := hok a b t hmem
    have hdpos : 0 < sp.distance a toS := lt_of_lt_of_le hpos hge
    have hq0 : 0 < sp.delta_ / sp.distance a toS := div_pos hpos hdpos
    have hq1 : sp.delta_ / sp.distance a toS ≤ 1 := (div_le_one hdpos).mpr hge
    refine ⟨ha, hb, ht, hge, ne_of_gt hdpos, hq0, hq1, ?_, ?_⟩
    · rw [ht, ← hfl0]; exact hmono _ _ (le_of_lt hq0)
    · rw [ht, ← hfl1]; exact hmono _ _ hq1
  · intro c hc
    rcases hexit with ⟨_, _, _, hcalls⟩ | ⟨hlt, ⟨rest, hcalls⟩, _⟩
    · rw [hcalls] at hc
      simp [Call.isInterpolate] at hc
    · rw [hcalls] at hc
      simp only [List.cons_append, List.nil_append, List.find?_cons, Call.isInterpolate,
        Option.some.injEq] at hc
      refine ⟨hc.symm, (div_lt_one (lt_trans hpos hlt)).mpr hlt, ?_⟩
      intro p hp1 hpfix hqp
      calc sp.fl (sp.delta_ / sp.distance fromS toS) ≤ sp.fl p := hmono _ _ hqp
        _ = p := hpfix
        _ < 1 := hp1

/-- Witness for C15 (amended): the run from 0 to `2^600` on `underflowLine`, whose one
`interpolate` call has the exact quotient `2^-1200` and the parameter 0. -/
theorem traverseManifold_interpolation_parameter_witness :
    0 < underflowLine.delta_ ∧ underflowLine.isSatisfied 0 = true ∧
    (∀ x y, x ≤ y → underflowLine.fl x ≤ underflowLine.fl y) ∧
    underflowLine.fl 0 = 0 ∧ underflowLine.fl 1 = 1 ∧
    traverseManifold underflowLine 1 0 (2 ^ 600) false (some [9]) true =
      some underflowOutcome ∧
    (∀ a b t, Call.interpolate a b t ∈ underflowOutcome.calls →
      a ∈ (0 : ℚ) :: underflowOutcome.accepted ∧ b = 2 ^ 600 ∧
      t = underflowLine.fl (underflowLine.delta_ / underflowLine.distance a (2 ^ 600)) ∧
      underflowLine.delta_ ≤ underflowLine.distance a (2 ^ 600) ∧
      underflowLine.distance a (2 ^ 600) ≠ 0 ∧
      0 < underflowLine.delta_ / underflowLine.distance a (2 ^ 600) ∧
      underflowLine.delta_ / underflowLine.distance a (2 ^ 600) ≤ 1 ∧
      0 ≤ t ∧ t ≤ 1) := by
  have hpos : 0 < underflowLine.delta_ := by norm_num [underflowLine]
  have h0 : underflowLine.fl 0 = 0 := by
    simp only [underflowLine, abs_zero]
    rw [if_pos (by positivity)]
  have h1 : underflowLine.fl 1 = 1 := by norm_num [underflowLine]
  exact ⟨hpos, rfl, underflowLine_fl_mono, h0, h1, underflowLine_run,
    (traverseManifold_interpolation_parameter underflowLine 1 0 (2 ^ 600) false (some [9])
      true underflowOutcome hpos rfl underflowLine_fl_mono h0 h1 underflowLine_run).1⟩

/-! ## Leaving the loop through a stop condition -/

theorem blockedTarget_run :
    traverseManifold (blockedTarget 1) 2 0 2 false (some [9]) true = some blockedOutcome := by
  norm_num [traverseManifold, traverseLoop, loopBody, blockedTarget, blockedOutcome]

theorem blockedTarget_rejects :
    StepRejected (blockedTarget 1) 2 false blockedOutcome.previous :=
  Or.inr (Or.inl ⟨rfl, by norm_num [blockedTarget, blockedOutcome, scratchOf]⟩)

/-- The step from `prev` is not accepted exactly when it is rejected or makes no
progress. -/
theorem not_acceptedStep_iff (sp : ProjectedStateSpace S) (toS : S) (interpolate : Bool)
    (prev : S) :
    (¬ ∃ s, AcceptedStep sp toS interpolate prev s) ↔
      StepRejected sp toS interpolate prev ∨ StepNoProgress sp toS interpolate prev := by
  rw [← stepAccepts_iff, Bool.not_eq_true, stepAccepts_eq_false_iff]

/-- If the first step is not accepted, the call returns false after one iteration with
any fuel of at least one iteration. -/
theorem traverseManifold_first_step_fails (sp : ProjectedStateSpace S) (fromS toS : S)
    (interpolate : Bool) (stateList : Option (List S)) (endpoints : Bool)
    (hsat : sp.isSatisfied fromS = true) (hd : sp.delta_ < sp.distance fromS toS)
    (hfail : ¬ ∃ s, AcceptedStep sp toS interpolate fromS s) (n : Nat) :
    ∃ out, traverseManifold sp (n + 1) fromS toS interpolate stateList endpoints =
        some out ∧ out.ret = false ∧ out.accepted = [] ∧ out.previous = fromS := by
  obtain ⟨r, hr, hp, hdist, _, ha⟩ := traverseLoop_stops_at_failed_step sp toS interpolate n
    { previous := fromS, dist := sp.distance fromS toS,
      stateList := stateList.map (fun _ => if endpoints then [fromS] else []),
      accepted := [], calls := [Call.isSatisfied fromS, Call.distance fromS toS] }
    rfl hfail
  refine ⟨{ ret := decide (r.dist ≤ sp.delta_), stateList := r.stateList,
            previous := r.previous, accepted := r.accepted, calls := r.calls }, ?_, ?_, ha, hp⟩
  · unfold traverseManifold
    simp only [hsat, Bool.not_true, Bool.false_eq_true, if_false, not_le.mpr hd, hr,
      Option.map_some']
  · simp only [hdist, decide_eq_false_iff_not, not_le]
    exact hd

/-- C16: on a feasible start state, whenever `traverseManifold` returns after a last
iteration that took the first `break` (projection, validity or deviation), right after
an accepted state within `delta_` of `to`, it returns true; and this happens: on the
line with step 1, from 0 to 2, with a validity checker that rejects 2, the state 1 is
accepted, the next step is rejected and the call returns true. -/
theorem traverseManifold_close_enough_counts (sp : ProjectedStateSpace S) (fuel : Nat)
    (fromS toS : S) (interpolate : Bool) (stateList : Option (List S)) (endpoints : Bool)
    (out : Outcome S) (hsat : sp.isSatisfied fromS = true)
    (h : traverseManifold sp fuel fromS toS interpolate stateList endpoints = some out)
    (_hstop : out.iterations = out.accepted.length + 1)
    (_hacc : out.accepted ≠ [])
    (_hrej : StepRejected sp toS interpolate out.previous)
    (hclose : sp.distance out.previous toS ≤ sp.delta_) :
    out.ret = true ∧
    ∃ o, traverseManifold (blockedTarget 1) 2 0 2 false (some [9]) true = some o ∧
      o.iterations = o.accepted.length + 1 ∧ o.accepted = [1] ∧
      StepRejected (blockedTarget 1) 2 false o.previous ∧
      (blockedTarget 1).distance o.previous 2 ≤ (blockedTarget 1).delta_ ∧
      o.ret = true := by
  refine ⟨(traverseManifold_inv sp fuel fromS toS interpolate stateList endpoints out hsat
    h).ret_iff.mpr hclose, blockedOutcome, blockedTarget_run, ?_, rfl, blockedTarget_rejects,
    ?_, rfl⟩
  · simp [Outcome.iterations, blockedOutcome, Call.isProject, List.countP_cons]
  · norm_num [blockedTarget, blockedOutcome]

/-- Witness for C16: the run from 0 to 2 with the validity checker that rejects 2. -/
theorem traverseManifold_close_enough_counts_witness :
    (blockedTarget 1).isSatisfied 0 = true ∧
    traverseManifold (blockedTarget 1) 2 0 2 false (some [9]) true = some blockedOutcome ∧
    blockedOutcome.iterations = blockedOutcome.accepted.length + 1 ∧
    blockedOutcome.accepted ≠ [] ∧
    StepRejected (blockedTarget 1) 2 false blockedOutcome.previous ∧
    (blockedTarget 1).distance blockedOutcome.previous 2 ≤ (blockedTarget 1).delta_ ∧
    blockedOutcome.ret = true := by
  have hstop : blockedOutcome.iterations = blockedOutcome.accepted.length + 1 := by
    simp [Outcome.iterations, blockedOutcome, Call.isProject, List.countP_cons]
  have hacc : blockedOutcome.accepted ≠ [] := by simp [blockedOutcome]
  have hclose : (blockedTarget 1).distance blockedOutcome.previous 2 ≤
      (blockedTarget 1).delta_ := by norm_num [blockedTarget, blockedOutcome]
  exact ⟨rfl, blockedTarget_run, hstop, hacc, blockedTarget_rejects, hclose,
    (traverseManifold_close_enough_counts (blockedTarget 1) 2 0 2 false (some [9]) true
      blockedOutcome rfl blockedTarget_run hstop hacc blockedTarget_rejects hclose).1⟩

/-- C17: on a feasible start state, whenever `traverseManifold` returns, the loop ran
either as many iterations as it accepted states or one more. In the second case its
last step was rejected or made no progress, and the call returns true only if the
distance from the last accepted state to `to` equals `delta_` exactly. If the step from
`from` is rejected or makes no progress, the call returns false after one iteration (and
does return, with any fuel of at least one iteration). No step ever starts from a state
strictly closer than `delta_` to `to`. -/
theorem traverseManifold_stop_condition_success (sp : ProjectedStateSpace S) (fuel : Nat)
    (fromS toS : S) (interpolate : Bool) (stateList : Option (List S)) (endpoints : Bool)
    (out : Outcome S) (hsat : sp.isSatisfied fromS = true)
    (h : traverseManifold sp fuel fromS toS interpolate stateList endpoints = some out) :
    (out.iterations = out.accepted.length ∨ out.iterations = out.accepted.length + 1) ∧
    (out.iterations = out.accepted.length + 1 →
      (StepRejected sp toS interpolate out.previous ∨
        StepNoProgress sp toS interpolate out.previous) ∧
      (out.ret = true → sp.distance out.previous toS = sp.delta_)) ∧
    (sp.delta_ < sp.distance fromS toS →
      (StepRejected sp toS interpolate fromS ∨ StepNoProgress sp toS interpolate fromS) →
      out.ret = false ∧ out.accepted = [] ∧ out.iterations = 1 ∧
      ∀ n, ∃ o, traverseManifold sp (n + 1) fromS toS interpolate stateList endpoints =
        some o ∧ o.ret = false) ∧
    (∀ a b t, Call.interpolate a b t ∈ out.calls →
      a ∈ fromS :: out.accepted ∧ sp.delta_ ≤ sp.distance a toS) := by
  obtain ⟨hok, hexit⟩ := traverseManifold_exit sp fuel fromS toS interpolate stateList
    endpoints out hsat h
  have hret := (traverseManifold_inv sp fuel fromS toS interpolate stateList endpoints out
    hsat h).ret_iff
  have hdich : out.iterations = out.accepted.length ∨
      out.iterations = out.accepted.length + 1 := by
    rcases hexit with ⟨_, ha, hi, _⟩ | ⟨_, _, ⟨hi, _, _⟩ | ⟨hi, _, _⟩⟩
    · left; rw [hi, ha]; rfl
    · right; exact hi
    · left; exact hi
  refine ⟨hdich, ?_, ?_, fun a b t hmem => ⟨(hok a b t hmem).2.2.2, (hok a b t hmem).2.2.1⟩⟩
  · intro hstop
    rcases hexit with ⟨_, ha, hi, _⟩ | ⟨_, _, ⟨_, hge, hfail⟩ | ⟨hi, _, _⟩⟩
    · rw [hi, ha] at hstop
      simp at hstop
    · exact ⟨(stepAccepts_eq_false_iff sp toS interpolate out.previous).mp hfail,
        fun hr => le_antisymm (hret.mp hr) hge⟩
    · omega
  · intro hd hfail
    have hfail' := (not_acceptedStep_iff sp toS interpolate fromS).mpr hfail
    have hall := traverseManifold_first_step_fails sp fromS toS interpolate stateList
      endpoints hsat hd hfail'
    cases fuel with
    | zero =>
      simp [traverseManifold, hsat, not_le.mpr hd, traverseLoop] at h
    | succ n =>
      obtain ⟨o, ho, hr, ha, _⟩ := hall n
      rw [ho] at h
      cases h
      refine ⟨hr, ha, ?_, fun m => ?_⟩
      · rcases hdich with hi | hi
        · rcases hexit with ⟨hle, _⟩ | ⟨_, _, ⟨hi', _, _⟩ | ⟨_, _, hne⟩⟩
          · exact absurd hle (not_le.mpr hd)
          · rw [hi', ha]; rfl
          · exact absurd ha hne
        · rw [hi, ha]; rfl
      · obtain ⟨o', ho', hr', _⟩ := hall m
        exact ⟨o', ho', hr'⟩

/-- Witness for C17: the run from 0 to 2 with step 1 and a validity checker that rejects
2 leaves the loop through a rejected step at distance exactly `delta_ = 1`. -/
theorem traverseManifold_stop_condition_success_witness :
    (blockedTarget 1).isSatisfied 0 = true ∧
    traverseManifold (blockedTarget 1) 2 0 2 false (some [9]) true = some blockedOutcome ∧
    (blockedOutcome.iterations = blockedOutcome.accepted.length + 1 →
      (StepRejected (blockedTarget 1) 2 false blockedOutcome.previous ∨
        StepNoProgress (blockedTarget 1) 2 false blockedOutcome.previous) ∧
      (blockedOutcome.ret = true →
        (blockedTarget 1).distance blockedOutcome.previous 2 = (blockedTarget 1).delta_)) :=
  ⟨rfl, blockedTarget_run,
    (traverseManifold_stop_condition_success (blockedTarget 1) 2 0 2 false (some [9]) true
      blockedOutcome rfl blockedTarget_run).2.1⟩

/-! ## Independence of the list and of the endpoints flag -/

/-- C18 (as stated, refuted): on an infeasible start state both calls leave the (empty)
list as it was, so the path left with endpoints is not the copy of `from` followed by
the path left without endpoints. -/
theorem traverseManifold_infeasible_endpoints_path :
    ∃ out1 out2 path,
      traverseManifold (neverSatisfied (1 / 10)) 1 0 5 false (some []) true = some out1 ∧
      traverseManifold (neverSatisfied (1 / 10)) 1 0 5 false (some []) false = some out2 ∧
      out2.stateList = some path ∧ out1.stateList ≠ some (0 :: path) :=
  ⟨_, _, [], rfl, rfl, rfl, by simp⟩

/-- C18 (amended): for the same `from`, `to`, `interpolate` flag and collaborators, the
returned boolean, the last accepted state and the sequence of accepted states are the
same whether or not a list is supplied and whatever the endpoints flag is (and so is
the fuel needed); and for a feasible `from`, the path collected with endpoints is the
copy of `from` followed by the path collected without endpoints, which is the sequence
of accepted states. -/
theorem traverseManifold_flags_independent (sp : ProjectedStateSpace S) (fuel : Nat)
    (fromS toS : S) (interpolate : Bool) (l1 l2 : Option (List S)) (e1 e2 : Bool) :
    (traverseManifold sp fuel fromS toS interpolate l1 e1).map Outcome.traversal =
      (traverseManifold sp fuel fromS toS interpolate l2 e2).map Outcome.traversal ∧
    (sp.isSatisfied fromS = true → ∀ la lb out1 out2,
      traverseManifold sp fuel fromS toS interpolate (some la) true = some out1 →
      traverseManifold sp fuel fromS toS interpolate (some lb) false = some out2 →
      out1.accepted = out2.accepted ∧ out2.stateList = some out2.accepted ∧
      out1.stateList = some (fromS :: out2.accepted)) := by
  have hsim : ∀ (k1 k2 : Option (List S)) (f1 f2 : Bool),
      (traverseManifold sp fuel fromS toS interpolate k1 f1).map Outcome.traversal =
        (traverseManifold sp fuel fromS toS interpolate k2 f2).map Outcome.traversal :=
    fun k1 k2 f1 f2 =>
      traverseManifold_sim sp sp.isValid interpolate interpolate (fun _ => rfl) fuel fromS
        toS k1 k2 f1 f2
  refine ⟨hsim l1 l2 e1 e2, ?_⟩
  intro hsat la lb out1 out2 h1 h2
  have hT := hsim (some la) (some lb) true false
  rw [h1, h2] at hT
  simp only [Option.map_some', Option.some.injEq, Outcome.traversal, Prod.mk.injEq] at hT
  have hl1 := (traverseManifold_inv sp fuel fromS toS interpolate (some la) true out1 hsat
    h1).list_eq
  have hl2 := (traverseManifold_inv sp fuel fromS toS interpolate (some lb) false out2 hsat
    h2).list_eq
  refine ⟨hT.2.2, by simpa using hl2, ?_⟩
  rw [hl1, hT.2.2]
  simp

/-- Witness for C18 (amended): the run from 0 to 2 on the unconstrained line, with and
without endpoints. -/
theorem traverseManifold_flags_independent_witness :
    (freeLine 1).isSatisfied 0 = true ∧
    traverseManifold (freeLine 1) 2 0 2 false (some [9]) true = some freeLineOutcome ∧
    traverseManifold (freeLine 1) 2 0 2 false (some [8]) false =
      some { freeLineOutcome with stateList := some [1, 2] } ∧
    freeLineOutcome.stateList = some (0 :: [1, 2]) := by
  have h2 : traverseManifold (freeLine 1) 2 0 2 false (some [8]) false =
      some { freeLineOutcome with stateList := some [1, 2] } := by
    norm_num [traverseManifold, traverseLoop, loopBody, freeLine, freeLineOutcome]
  exact ⟨rfl, freeLine_run, h2,
    ((traverseManifold_flags_independent (freeLine 1) 2 0 2 false (some [9]) (some [8])
      true false).2 rfl [9] [8] freeLineOutcome _ freeLine_run h2).2.2⟩

end base
end ompl
